import Mathlib

/-!
Verification development for the SMKL weekly rostering assistant
(`SMKL_weekly_assignment_final.py`).

The core of the program is a week-long allocation pipeline:
seven calls to `generate_day_assignments` (the Day Allocator) sharing
mutable weekly counters, followed by a fairness rebalancing block in
`main` that swaps step-van slots toward DOT-certified drivers who
received none.  Everything below is a shallow embedding of that logic:
Python dicts of counters become functions `String → Nat`, the per-day
label dictionaries (`day_label_maps`) become insertion-ordered
association lists, and every call to `random.shuffle` draws from an
explicit oracle `g : Nat → List String → List String` threaded through
the computation by an index, so that statements can quantify over all
random choices or exhibit a concrete one.
-/

/-- The assignment labels used by the program (`ASSIGN_PRIORITY` plus the
"Unassigned (Need XL)" marker written by `build_day_label_map`). -/
inductive Label where
  | DOT
  | HR
  | Helper
  | XL
  | Standby
  | UnassignedNew
deriving DecidableEq, Repr

/-- A roster row as produced by `build_driver_records`: a name and one raw
cell per day of the week (Sun..Sat, index 0..6); `none` models a NaN cell. -/
structure Driver where
  name : String
  days : List (Option String)
deriving DecidableEq, Repr

/-- `.strip()`: drop whitespace from both ends (computed structurally on the
character list so that the kernel can evaluate it). -/
def stripStr (s : String) : String :=
  String.mk (((s.data.dropWhile Char.isWhitespace).reverse.dropWhile Char.isWhitespace).reverse)

/-- `.lower()`. -/
def lowerStr (s : String) : String :=
  String.mk (s.data.map Char.toLower)

/-- Normalisation applied to a raw cell: `str(v).strip().lower()`. -/
def cellNorm (s : String) : String :=
  lowerStr (stripStr s)

/-- `scheduled_on_day`: the cell for the day is non-NaN and normalises to
"1" or "dot". -/
def scheduled_on_day (d : Driver) (i : Nat) : Bool :=
  match d.days.getD i none with
  | none => false
  | some v => cellNorm v == "1" || cellNorm v == "dot"

/-- `infer_dot_cert`: some day's non-NaN cell normalises to "dot". -/
def infer_dot_cert (d : Driver) : Bool :=
  d.days.any (fun v =>
    match v with
    | none => false
    | some s => cellNorm s == "dot")

/-- First-occurrence deduplication, the order semantics of
`dict.fromkeys(...)` used for `all_avail` and of dict-key iteration. -/
def dedupF (seen : List String) : List String → List String
  | [] => []
  | a :: l => if a ∈ seen then dedupF seen l else a :: dedupF (a :: seen) l

/-- `dot_map = {d["name"]: infer_dot_cert(d) for d in drivers}` read through
`.get(n, False)`: a duplicate name keeps the last record's value, a missing
name reads `False`. -/
def dotMap (drivers : List Driver) (n : String) : Bool :=
  match (drivers.filter (fun r => decide (r.name = n))).getLast? with
  | some r => infer_dot_cert r
  | none => false

/-- Point increment of a counter dict (`cnt[n] += 1` / `cnt[n] = cnt.get(n,0)+1`). -/
def bump (f : String → Nat) (x : String) : String → Nat :=
  fun y => if y = x then f x + 1 else f y

/-- The oracle standing for `random.shuffle`: call number `k` replaces a
list by `g k` of it.  Claims either quantify over all `g` or pick one. -/
abbrev Rng := Nat → List String → List String

/-- `prioritize_and_sample(pool, need, priority)`.  `need` is a Python int;
a non-positive need yields `[]`.  When `priority` is a non-empty list it is
filtered down to `pool`, shuffled *as a whole*, and its first
`min(len, need)` entries are taken; any remaining need is filled from the
shuffled rest of the pool.  Returns the chosen list and the next rng index. -/
def prioritize_and_sample (g : Rng) (k : Nat) (pool : List String) (need : Int)
    (priority : List String) : List String × Nat :=
  if need ≤ 0 then ([], k)
  else
    let pk : List String × Nat :=
      if priority = [] then ([], k)
      else
        let pri := priority.filter (fun n => decide (n ∈ pool))
        let pri := g k pri
        let take := min (pri.length : Int) need
        (pri.take take.toNat, k + 1)
    let chosen := pk.1
    let k := pk.2
    let remaining : Int := need - chosen.length
    if 0 < remaining then
      let rest := pool.filter (fun n => decide (n ∉ chosen))
      let rest := g k rest
      (chosen ++ rest.take remaining.toNat, k + 1)
    else (chosen, k)

/-- The `counts` dict handed to the Day Allocator: the four per-day targets
read from user input. -/
structure DayCounts where
  dot_helperroute : Int
  dot_helper : Int
  dot : Int
  xl : Int
deriving DecidableEq, Repr

/-- The dictionary returned by `generate_day_assignments`. -/
structure DayAssignment where
  dot : List String
  hr : List String
  helper : List String
  xl : List String
  standby : List String
  unassignedNew : List String
  pairs : List (String × Option String)
deriving DecidableEq, Repr

/-- `scheduled = [d["name"] for d in drivers if scheduled_on_day(d, day_name)]`. -/
def scheduledNames (drivers : List Driver) (i : Nat) : List String :=
  (drivers.filter (fun d => scheduled_on_day d i)).map (fun d => d.name)

/-- The first counter loop of the Day Allocator: for each selected step-van
driver with a truthy `dot_map` entry, increment both `dot_weekly_count` and
`dot_stepvan_count`. -/
def bumpBoth (dot_map : String → Bool) (ws : (String → Nat) × (String → Nat))
    (l : List String) : (String → Nat) × (String → Nat) :=
  l.foldl (fun p n => if dot_map n then (bump p.1 n, bump p.2 n) else p) ws

/-- The second counter loop: helpers with a truthy `dot_map` entry increment
`dot_weekly_count` only. -/
def bumpWeekly (dot_map : String → Bool) (w : String → Nat) (l : List String) :
    String → Nat :=
  l.foldl (fun w n => if dot_map n then bump w n else w) w

/-- The standby loop: accept each candidate whose tracker value is below 2,
then increment that tracker entry. -/
def standbyLoop : List String → (String → Nat) → List String × (String → Nat)
  | [], t => ([], t)
  | n :: rest, t =>
    if t n < 2 then
      let r := standbyLoop rest (bump t n)
      (n :: r.1, r.2)
    else standbyLoop rest t

/-- Pair each DOT-HelperRoute driver with the next helper, `none` once the
helpers run out. -/
def pairLoop : List String → List String → List (String × Option String)
  | [], _ => []
  | d :: ds, [] => (d, none) :: pairLoop ds []
  | d :: ds, h :: hs => (d, some h) :: pairLoop ds hs

/-- Shallow embedding of `generate_day_assignments`.  Takes the rng oracle
and its index, the roster, the `dot_map` dict, the new / semi-restricted
lists, the day's targets, the day index, and the three counter dicts;
returns the day's assignment together with the updated
`dot_weekly_count`, `dot_stepvan_count`, `standby_tracker` and rng index. -/
def generate_day_assignments (g : Rng) (k : Nat) (drivers : List Driver)
    (dot_map : String → Bool) (new_list semi : List String)
    (counts : DayCounts) (dayIdx : Nat)
    (weekly stepvan tracker : String → Nat) :
    DayAssignment × (String → Nat) × (String → Nat) × (String → Nat) × Nat :=
  let scheduled := scheduledNames drivers dayIdx
  let new_sched := new_list.filter (fun n => decide (n ∈ scheduled))
  let all_avail := dedupF [] (scheduled ++ new_sched)
  let dot_avail := all_avail.filter (fun n => dot_map n && decide (n ∉ semi))
  -- New drivers get XL
  let need_xl : Int := counts.xl
  let take_new := min (new_sched.length : Int) need_xl
  let xlStep : List String × List String × Int × Nat :=
    if 0 < take_new then
      let ns := g k new_sched
      (ns.take take_new.toNat, ns, need_xl - take_new, k + 1)
    else ([], new_sched, need_xl, k)
  let xl_assigned := xlStep.1
  let new_sched := xlStep.2.1
  let need_xl := xlStep.2.2.1
  let k := xlStep.2.2.2
  let unassigned_new := new_sched.filter (fun n => decide (n ∉ xl_assigned))
  -- DOT step-van logic
  let eligible_dot := dot_avail.filter (fun n => weekly n < 2)
  let zero_step := eligible_dot.filter (fun n => stepvan n = 0)
  let one_step := eligible_dot.filter (fun n => stepvan n = 1)
  let dot_priority := zero_step ++ one_step
  let dotR := prioritize_and_sample g k eligible_dot counts.dot dot_priority
  let dot_assigned := dotR.1
  let k := dotR.2
  let remaining_dot := eligible_dot.filter (fun n => decide (n ∉ dot_assigned))
  let zero_step2 := remaining_dot.filter (fun n => stepvan n = 0)
  let one_step2 := remaining_dot.filter (fun n => stepvan n = 1)
  let hrR := prioritize_and_sample g k remaining_dot counts.dot_helperroute
    (zero_step2 ++ one_step2)
  let helperroute_assigned := hrR.1
  let k := hrR.2
  let helper_pool := scheduled.filter
    (fun n => decide (n ∉ dot_assigned ++ helperroute_assigned ++ xl_assigned))
  let helpR := prioritize_and_sample g k helper_pool counts.dot_helper []
  let helper_assigned := helpR.1
  let k := helpR.2
  -- counter updates
  let ws := bumpBoth dot_map (weekly, stepvan) (dot_assigned ++ helperroute_assigned)
  let weekly := bumpWeekly dot_map ws.1 helper_assigned
  let stepvan := ws.2
  -- remaining XL
  let xlStep2 : List String × Nat :=
    if 0 < need_xl then
      let remain := scheduled.filter (fun n =>
        decide (n ∉ dot_assigned ++ helperroute_assigned ++ helper_assigned ++ xl_assigned))
      let remain := g k remain
      (xl_assigned ++ remain.take need_xl.toNat, k + 1)
    else (xl_assigned, k)
  let xl_assigned := xlStep2.1
  let k := xlStep2.2
  -- standby capped at 2 per week
  let assigned_now := dot_assigned ++ helperroute_assigned ++ helper_assigned ++ xl_assigned
  let standby_candidates := scheduled.filter (fun n => decide (n ∉ assigned_now))
  let sb := standbyLoop standby_candidates tracker
  let standby := sb.1
  let tracker := sb.2
  -- pair DOT-HelperRoute with helpers
  let helpers_for_pair := g k helper_assigned
  let k := k + 1
  let pairs := pairLoop helperroute_assigned helpers_for_pair
  (⟨dot_assigned, helperroute_assigned, helper_assigned, xl_assigned, standby,
    unassigned_new, pairs⟩, weekly, stepvan, tracker, k)

/-- A per-day label dictionary (`day_label_maps[day_idx]`): a Python dict
keyed by driver name, modelled as an insertion-ordered association list. -/
abbrev LabelMap := List (String × Label)

/-- Dict lookup (`m.get(n)`): value of the first entry with key `n`. -/
def dget (m : LabelMap) (n : String) : Option Label :=
  (m.find? (fun p => decide (p.1 = n))).map (fun p => p.2)

/-- Dict write (`m[n] = l`): update in place keeping the key's position, or
append a fresh entry at the end, as a Python dict does. -/
def dset (m : LabelMap) (n : String) (l : Label) : LabelMap :=
  if m.any (fun p => decide (p.1 = n)) then
    m.map (fun p => if p.1 = n then (n, l) else p)
  else m ++ [(n, l)]

/-- Dict removal (`m.pop(n)`). -/
def dpop (m : LabelMap) (n : String) : LabelMap :=
  m.filter (fun p => decide (¬ p.1 = n))

/-- `if n not in m: m[n] = l` — the conditional write used by
`build_day_label_map` for the prioritized labels. -/
def setIfAbsent (m : LabelMap) (n : String) (l : Label) : LabelMap :=
  if (dget m n).isSome then m else m ++ [(n, l)]

/-- `build_day_label_map`: helper-route drivers from the pairings first,
then the remaining labels in `ASSIGN_PRIORITY` order without overwriting,
finally the unconditional "Unassigned (Need XL)" overwrite for the new
drivers that missed the XL cut. -/
def build_day_label_map (a : DayAssignment) : LabelMap :=
  let m : LabelMap := []
  let m := a.pairs.foldl (fun m p => if p.1 = "" then m else dset m p.1 Label.HR) m
  let m := a.dot.foldl (fun m n => setIfAbsent m n Label.DOT) m
  let m := a.helper.foldl (fun m n => setIfAbsent m n Label.Helper) m
  let m := a.xl.foldl (fun m n => setIfAbsent m n Label.XL) m
  let m := a.standby.foldl (fun m n => setIfAbsent m n Label.Standby) m
  a.unassignedNew.foldl (fun m n => dset m n Label.UnassignedNew) m

/-- State threaded through the seven Day Allocator calls in `main`. -/
structure WeekSt where
  days : List DayAssignment
  weekly : String → Nat
  stepvan : String → Nat
  tracker : String → Nat
  k : Nat

/-- One iteration of the generation loop in `main`: allocate day `i` with
the targets entered for it and carry the counters forward. -/
def stepDay (g : Rng) (drivers : List Driver) (dot_map : String → Bool)
    (new_list semi : List String) (targets : List DayCounts)
    (st : WeekSt) (i : Nat) : WeekSt :=
  let r := generate_day_assignments g st.k drivers dot_map new_list semi
    (targets.getD i ⟨0, 0, 0, 0⟩) i st.weekly st.stepvan st.tracker
  ⟨st.days ++ [r.1], r.2.1, r.2.2.1, r.2.2.2.1, r.2.2.2.2⟩

/-- The generation loop over a list of day indices. -/
def runDaysFrom (g : Rng) (drivers : List Driver) (dot_map : String → Bool)
    (new_list semi : List String) (targets : List DayCounts) :
    List Nat → WeekSt → WeekSt
  | [], st => st
  | i :: rest, st =>
    runDaysFrom g drivers dot_map new_list semi targets rest
      (stepDay g drivers dot_map new_list semi targets st i)

/-- The keys of `dot_weekly_count` / `dot_stepvan_count`: the certified
driver names, in first-occurrence roster order. -/
def certNames (drivers : List Driver) : List String :=
  (dedupF [] (drivers.map (fun d => d.name))).filter (dotMap drivers)

/-- `standby_count` as `main` recomputes it: the number of day label maps
that currently label the driver Standby. -/
def standbyLabelDays (maps : List LabelMap) (n : String) : Nat :=
  maps.countP (fun m => decide (dget m n = some Label.Standby))

/-- State of the fairness-enforcement block in `main`. -/
structure RebSt where
  maps : List LabelMap
  stepvan : String → Nat
  sbc : String → Nat
  swaps : List (String × String × Nat)
  reass : List (String × Nat)

/-- The swap body: pop the victim `v` from day `i`'s label map, write the
unserved driver `d` in with label "DOT" (the `group` variable always holds
"DOT" when a victim is found), set `d`'s step-van count to 1, and — when
the standby count allows — relabel the victim Standby, bumping the count. -/
def doSwap (dd : Driver) (d : String) (i : Nat) (v : String) (st : RebSt) : RebSt :=
  let m := st.maps.getD i []
  let m := dset (dpop m v) d Label.DOT
  let swaps := st.swaps ++ [(v, d, i)]
  let stepvan : String → Nat := fun y => if y = d then 1 else st.stepvan y
  if scheduled_on_day dd i then
    if st.sbc v < 2 then
      ⟨st.maps.set i (dset m v Label.Standby), stepvan, bump st.sbc v,
        swaps, st.reass ++ [(v, i)]⟩
    else ⟨st.maps.set i m, stepvan, st.sbc, swaps, st.reass⟩
  else ⟨st.maps.set i m, stepvan, st.sbc, swaps, st.reass⟩

/-- The first dict entry on the day holding a "DOT" or "DOT-HelperRoute"
label: the victim chosen by the nested group scan in `main`. -/
def findVictim (m : LabelMap) : Option String :=
  (m.find? (fun p => decide (p.2 = Label.DOT) || decide (p.2 = Label.HR))).map
    (fun p => p.1)

/-- Scan the week's days in order for driver `d`; on the first scheduled day
whose label map holds a step-van label, perform the swap and stop. -/
def rebScanDays (dd : Driver) (d : String) : List Nat → RebSt → RebSt
  | [], st => st
  | i :: rest, st =>
    if scheduled_on_day dd i then
      match findVictim (st.maps.getD i []) with
      | some v => doSwap dd d i v st
      | none => rebScanDays dd d rest st
    else rebScanDays dd d rest st

/-- One iteration of `for driver in unassigned_dots`: look the driver's
record up (a missing record skips every day) and scan the week. -/
def rebalanceDriver (drivers : List Driver) (st : RebSt) (d : String) : RebSt :=
  match drivers.find? (fun r => decide (r.name = d)) with
  | some dd => rebScanDays dd d (List.range 7) st
  | none => st

/-- The whole fairness-enforcement block. -/
def rebalance (drivers : List Driver) (st : RebSt) (uds : List String) : RebSt :=
  uds.foldl (rebalanceDriver drivers) st

/-- The seven Day Allocator runs of `main`, starting from the all-zero
counter dicts, over day indices 0..6. -/
def allocPhase (g : Rng) (drivers : List Driver) (new_list semi : List String)
    (targets : List DayCounts) : WeekSt :=
  runDaysFrom g drivers (dotMap drivers) new_list semi targets (List.range 7)
    ⟨[], fun _ => 0, fun _ => 0, fun _ => 0, 0⟩

/-- The per-day label maps right after the day-by-day pass. -/
def allocMaps (g : Rng) (drivers : List Driver) (new_list semi : List String)
    (targets : List DayCounts) : List LabelMap :=
  (allocPhase g drivers new_list semi targets).days.map build_day_label_map

/-- Result of the full core pipeline (day-by-day pass then rebalancing;
after the rebalancing block the program only prints that the standby cap
pass is complete — no further pass modifies the plan). -/
structure Pipeline where
  days : List DayAssignment
  maps : List LabelMap
  weekly : String → Nat
  stepvan : String → Nat
  sbc : String → Nat
  swaps : List (String × String × Nat)
  reass : List (String × Nat)

/-- The full core pipeline of `main`. -/
def runPipeline (g : Rng) (drivers : List Driver) (new_list semi : List String)
    (targets : List DayCounts) : Pipeline :=
  let w := allocPhase g drivers new_list semi targets
  let maps := w.days.map build_day_label_map
  let uds := (certNames drivers).filter (fun n => decide (w.stepvan n = 0))
  let sbc0 : String → Nat := fun n => standbyLabelDays maps n
  let st := rebalance drivers ⟨maps, w.stepvan, sbc0, [], []⟩ uds
  ⟨w.days, st.maps, w.weekly, st.stepvan, st.sbc, st.swaps, st.reass⟩

/-! ### Concrete scenarios

Small rosters and shuffle oracles used to evaluate the pipeline at
explicit inputs. -/

/-- The shuffle oracle that leaves every list as it is (a permutation). -/
def rngId : Rng := fun _ l => l

/-- The shuffle oracle that reverses every list (a permutation). -/
def rngRev : Rng := fun _ l => l.reverse

/-- All-zero day targets. -/
def zeroCounts : DayCounts := ⟨0, 0, 0, 0⟩

/-- The all-zero counter dict. -/
def zeroCnt : String → Nat := fun _ => 0

/-- A week of targets: the given counts on Sunday, zeros afterwards. -/
def weekTargets1 (c : DayCounts) : List DayCounts :=
  [c] ++ List.replicate 6 zeroCounts

/-- A driver whose row carries the certified marker on Sunday only. -/
def drvCertSun (nm : String) : Driver :=
  ⟨nm, [some "dot", none, none, none, none, none, none]⟩

/-- A certified driver available Sunday through Tuesday. -/
def drvA3 : Driver :=
  ⟨"A", [some "dot", some "dot", some "dot", none, none, none, none]⟩

/-- A non-certified driver scheduled ("1") on Sunday only. -/
def drvNewSun : Driver :=
  ⟨"N", [some "1", none, none, none, none, none, none]⟩

/-- Targets driving the C1 scenario: one DOT route on Sunday and Monday,
one DOT-Helper on Tuesday, nothing else. -/
def c1Targets : List DayCounts :=
  [⟨0, 0, 1, 0⟩, ⟨0, 0, 1, 0⟩, ⟨0, 1, 0, 0⟩] ++ List.replicate 4 zeroCounts

/-- C1: the claim says the weekly cap `dotWeeklyCount ≤ 2` is never exceeded
by the Day Allocator alone.  The code increments `dot_weekly_count` for
certified DOT-Helper selections but never checks the cap when building the
helper pool, so a certified driver who already holds two step-van days is
still selected as DOT-Helper: with driver A certified Sun–Tue and targets
(DOT Sun, DOT Mon, Helper Tue), A ends the day-by-day pass with
`dot_weekly_count = 3`.  This contradicts the program's own header
("max 2 per week across DOT / DOT-HelperRoute / DOT-Helper"), so the code,
not the claim, is at fault. -/
theorem C1_weekly_cap_violated_by_helper :
    dotMap [drvA3] "A" = true ∧
    (allocPhase rngId [drvA3] [] [] c1Targets).weekly "A" = 3 := by decide

/-- C2: the claim says the five category lists of a single day are pairwise
disjoint for every input.  The certified-duty eligible set is computed from
`dot_avail` without removing the new drivers already granted XL, so a
certified driver in the new-driver list is selected for XL *and* for DOT on
the same day: with new certified driver N and Sunday targets (DOT 1, XL 1),
N appears in both category lists.  The code otherwise removes prior
selections at every step and promises "New drivers are always assigned to
XL", so this is a slip in the code. -/
theorem C2_xl_and_dot_overlap :
    "N" ∈ (generate_day_assignments rngId 0 [drvCertSun "N"] (dotMap [drvCertSun "N"])
      ["N"] [] ⟨0, 0, 1, 1⟩ 0 zeroCnt zeroCnt zeroCnt).1.xl ∧
    "N" ∈ (generate_day_assignments rngId 0 [drvCertSun "N"] (dotMap [drvCertSun "N"])
      ["N"] [] ⟨0, 0, 1, 1⟩ 0 zeroCnt zeroCnt zeroCnt).1.dot := by decide

/-- The counters of the C4 scenario: driver B already holds one step-van
day (tier 1), driver A none (tier 0); both are under the weekly cap. -/
def c4Cnt : String → Nat := fun n => if n = "B" then 1 else 0

/-- C4: the claim says tier 0 (`stepvanCount = 0`) is placed before tier 1
with randomization only within a tier.  `prioritize_and_sample` shuffles
the *whole* concatenated priority list `zero_step + one_step`, so a reversing
shuffle selects tier-1 driver B for the single DOT slot while tier-0 driver
A — certified, unrestricted, and under the weekly cap — is left unselected.
The code builds the two-tier order (`zero_step + one_step`, recomputed again
for the helper-route step) only to destroy it with the shuffle, so the
tiering described by the claim is the intent and the shuffle placement the
slip. -/
theorem C4_tier_order_not_respected :
    c4Cnt "A" = 0 ∧ c4Cnt "B" = 1 ∧
    dotMap [drvCertSun "A", drvCertSun "B"] "A" = true ∧
    (generate_day_assignments rngRev 0 [drvCertSun "A", drvCertSun "B"]
      (dotMap [drvCertSun "A", drvCertSun "B"]) [] [] ⟨0, 0, 1, 0⟩ 0
      c4Cnt c4Cnt zeroCnt).1.dot = ["B"] ∧
    "A" ∉ (generate_day_assignments rngRev 0 [drvCertSun "A", drvCertSun "B"]
      (dotMap [drvCertSun "A", drvCertSun "B"]) [] [] ⟨0, 0, 1, 0⟩ 0
      c4Cnt c4Cnt zeroCnt).1.dot := by decide

/-- C5 counterexample: the claim says a swap victim is reassigned to the
Standard (XL) category and never to Standby.  Running the pipeline on two
certified drivers A and B with a single Sunday DOT slot, A is picked on
Sunday, the rebalancer swaps B in, and the victim A ends the week labelled
Standby — not XL. -/
theorem C5_victim_not_standard_counterexample :
    let p := runPipeline rngId [drvCertSun "A", drvCertSun "B"] [] []
      (weekTargets1 ⟨0, 0, 1, 0⟩)
    p.swaps = [("A", "B", 0)] ∧
    dget (p.maps.getD 0 []) "A" = some Label.Standby := by decide

/-- C6: the claim says a semi-restricted driver never appears in the DOT or
DOT-HelperRoute category of the final plan.  The Day Allocator honours the
restriction, but the fairness block of `main` builds `unassigned_dots` from
every certified driver with zero step-van count — the semi-restricted ones
included — and swaps them into a step-van slot without re-checking the
restriction: certified semi-restricted driver S ends the week labelled
DOT.  The program's own prompt ("semi-restricted drivers (cannot do
DOT/HelperRoute)") makes this a code slip. -/
theorem C6_semi_restricted_swapped_into_dot :
    "S" ∈ ["S"] ∧
    dget ((runPipeline rngId [drvCertSun "A", drvCertSun "S"] [] ["S"]
      (weekTargets1 ⟨0, 0, 1, 0⟩)).maps.getD 0 []) "S" = some Label.DOT := by decide

/-- C8 counterexample: the claim says a new driver who misses the XL cut
ends the day with no category at all — in particular not Standby.  With new
driver N scheduled Sunday and every Sunday target zero, the Day Allocator
leaves N unselected and the standby step then accepts N (tracker 0 < 2):
N is placed in the Standby category. -/
theorem C8_new_driver_standby_counterexample :
    let r := generate_day_assignments rngId 0 [drvNewSun] (dotMap [drvNewSun])
      ["N"] [] zeroCounts 0 zeroCnt zeroCnt zeroCnt
    "N" ∈ ["N"] ∧ r.1.standby = ["N"] ∧ r.1.unassignedNew = ["N"] := by decide

/-! ### The standby tracker: loop lemmas and the weekly bound -/

theorem bump_self (f : String → Nat) (x : String) : bump f x x = f x + 1 := by
  simp [bump]

theorem bump_ne (f : String → Nat) (x y : String) (h : y ≠ x) : bump f x y = f y := by
  simp [bump, h]

theorem standbyLoop_mono (cands : List String) (t : String → Nat) (n : String) :
    t n ≤ (standbyLoop cands t).2 n := by
  induction cands generalizing t with
  | nil => simp [standbyLoop]
  | cons m rest ih =>
    by_cases h : t m < 2
    · simp only [standbyLoop, if_pos h]
      refine le_trans ?_ (ih (bump t m))
      by_cases hnm : n = m
      · subst hnm; rw [bump_self]; omega
      · rw [bump_ne t m n hnm]
    · simp only [standbyLoop, if_neg h]
      exact ih t

theorem standbyLoop_mem_tracker (cands : List String) (t : String → Nat) (n : String)
    (h : n ∈ (standbyLoop cands t).1) :
    t n + 1 ≤ (standbyLoop cands t).2 n := by
  induction cands generalizing t with
  | nil => simp [standbyLoop] at h
  | cons m rest ih =>
    by_cases hm : t m < 2
    · simp only [standbyLoop, if_pos hm] at h ⊢
      rcases List.mem_cons.mp h with h1 | h2
      · subst h1
        have hmono := standbyLoop_mono rest (bump t n) n
        rwa [bump_self] at hmono
      · have hrec := ih (bump t m) h2
        by_cases hnm : n = m
        · subst hnm; rw [bump_self] at hrec; omega
        · rwa [bump_ne t m n hnm] at hrec
    · simp only [standbyLoop, if_neg hm] at h ⊢
      exact ih t h

theorem standbyLoop_le_two (cands : List String) (t : String → Nat) (n : String)
    (h : t n ≤ 2) : (standbyLoop cands t).2 n ≤ 2 := by
  induction cands generalizing t with
  | nil => simpa [standbyLoop] using h
  | cons m rest ih =>
    by_cases hm : t m < 2
    · simp only [standbyLoop, if_pos hm]
      apply ih
      by_cases hnm : n = m
      · subst hnm; rw [bump_self]; omega
      · rw [bump_ne t m n hnm]; exact h
    · simp only [standbyLoop, if_neg hm]
      exact ih t h

/-- The candidate list the Day Allocator feeds to the standby loop: every
scheduled driver not in the four selected category lists. -/
def gdaStandbyCands (g : Rng) (k : Nat) (drivers : List Driver)
    (dot_map : String → Bool) (new_list semi : List String)
    (counts : DayCounts) (dayIdx : Nat)
    (weekly stepvan tracker : String → Nat) : List String :=
  let r := generate_day_assignments g k drivers dot_map new_list semi counts
    dayIdx weekly stepvan tracker
  (scheduledNames drivers dayIdx).filter
    (fun n => decide (n ∉ r.1.dot ++ r.1.hr ++ r.1.helper ++ r.1.xl))

theorem gda_standby_eq (g : Rng) (k : Nat) (drivers : List Driver)
    (dot_map : String → Bool) (new_list semi : List String)
    (counts : DayCounts) (dayIdx : Nat) (weekly stepvan tracker : String → Nat) :
    (generate_day_assignments g k drivers dot_map new_list semi counts
      dayIdx weekly stepvan tracker).1.standby
      = (standbyLoop (gdaStandbyCands g k drivers dot_map new_list semi counts
          dayIdx weekly stepvan tracker) tracker).1 := rfl

theorem gda_tracker_eq (g : Rng) (k : Nat) (drivers : List Driver)
    (dot_map : String → Bool) (new_list semi : List String)
    (counts : DayCounts) (dayIdx : Nat) (weekly stepvan tracker : String → Nat) :
    (generate_day_assignments g k drivers dot_map new_list semi counts
      dayIdx weekly stepvan tracker).2.2.2.1
      = (standbyLoop (gdaStandbyCands g k drivers dot_map new_list semi counts
          dayIdx weekly stepvan tracker) tracker).2 := rfl

theorem stepDay_days (g : Rng) (drivers : List Driver) (dot_map : String → Bool)
    (new_list semi : List String) (targets : List DayCounts) (st : WeekSt) (i : Nat) :
    (stepDay g drivers dot_map new_list semi targets st i).days =
      st.days ++ [(generate_day_assignments g st.k drivers dot_map new_list semi
        (targets.getD i ⟨0, 0, 0, 0⟩) i st.weekly st.stepvan st.tracker).1] := rfl

theorem stepDay_tracker (g : Rng) (drivers : List Driver) (dot_map : String → Bool)
    (new_list semi : List String) (targets : List DayCounts) (st : WeekSt) (i : Nat) :
    (stepDay g drivers dot_map new_list semi targets st i).tracker =
      (generate_day_assignments g st.k drivers dot_map new_list semi
        (targets.getD i ⟨0, 0, 0, 0⟩) i st.weekly st.stepvan st.tracker).2.2.2.1 := rfl

theorem runDaysFrom_standby_bound (g : Rng) (drivers : List Driver)
    (dot_map : String → Bool) (new_list semi : List String)
    (targets : List DayCounts) (idxs : List Nat) (st : WeekSt) (n : String) :
    ∃ nd, (runDaysFrom g drivers dot_map new_list semi targets idxs st).days
        = st.days ++ nd ∧
      st.tracker n + nd.countP (fun a => decide (n ∈ a.standby)) ≤
        (runDaysFrom g drivers dot_map new_list semi targets idxs st).tracker n := by
  induction idxs generalizing st with
  | nil => exact ⟨[], by simp [runDaysFrom], by simp [runDaysFrom]⟩
  | cons i rest ih =>
    obtain ⟨nd, hdays, hle⟩ := ih (stepDay g drivers dot_map new_list semi targets st i)
    have hrun : runDaysFrom g drivers dot_map new_list semi targets (i :: rest) st =
        runDaysFrom g drivers dot_map new_list semi targets rest
          (stepDay g drivers dot_map new_list semi targets st i) := rfl
    set a := (generate_day_assignments g st.k drivers dot_map new_list semi
      (targets.getD i ⟨0, 0, 0, 0⟩) i st.weekly st.stepvan st.tracker).1 with ha
    refine ⟨a :: nd, ?_, ?_⟩
    · rw [hrun, hdays, stepDay_days, ← ha]
      simp only [List.append_assoc, List.singleton_append]
    · rw [hrun]
      have hsb : a.standby = (standbyLoop (gdaStandbyCands g st.k drivers dot_map new_list semi
          (targets.getD i ⟨0, 0, 0, 0⟩) i st.weekly st.stepvan st.tracker) st.tracker).1 := by
        rw [ha, gda_standby_eq]
      simp only [List.countP_cons]
      by_cases hmem : n ∈ a.standby
      · have h1 : st.tracker n + 1 ≤
            (stepDay g drivers dot_map new_list semi targets st i).tracker n := by
          rw [stepDay_tracker, gda_tracker_eq]
          exact standbyLoop_mem_tracker _ _ _ (by rwa [hsb] at hmem)
        have hite : (if decide (n ∈ a.standby) = true then 1 else 0) = 1 := by
          simp [hmem]
        rw [hite]
        omega
      · have h1 : st.tracker n ≤
            (stepDay g drivers dot_map new_list semi targets st i).tracker n := by
          rw [stepDay_tracker, gda_tracker_eq]
          exact standbyLoop_mono _ _ _
        have hite : (if decide (n ∈ a.standby) = true then 1 else 0) = 0 := by
          simp [hmem]
        rw [hite]
        omega

theorem runDaysFrom_tracker_le_two (g : Rng) (drivers : List Driver)
    (dot_map : String → Bool) (new_list semi : List String)
    (targets : List DayCounts) (idxs : List Nat) (st : WeekSt) (n : String)
    (h : st.tracker n ≤ 2) :
    (runDaysFrom g drivers dot_map new_list semi targets idxs st).tracker n ≤ 2 := by
  induction idxs generalizing st with
  | nil => simpa [runDaysFrom] using h
  | cons i rest ih =>
    apply ih
    rw [stepDay_tracker, gda_tracker_eq]
    exact standbyLoop_le_two _ _ _ h

theorem allocPhase_standby_mem_le_two (g : Rng) (drivers : List Driver)
    (new_list semi : List String) (targets : List DayCounts) (n : String) :
    ((allocPhase g drivers new_list semi targets).days.countP
      (fun a => decide (n ∈ a.standby))) ≤ 2 := by
  obtain ⟨nd, hdays, hle⟩ := runDaysFrom_standby_bound g drivers (dotMap drivers)
    new_list semi targets (List.range 7) ⟨[], fun _ => 0, fun _ => 0, fun _ => 0, 0⟩ n
  have h2 := runDaysFrom_tracker_le_two g drivers (dotMap drivers)
    new_list semi targets (List.range 7) ⟨[], fun _ => 0, fun _ => 0, fun _ => 0, 0⟩ n
    (by simp)
  have hval : allocPhase g drivers new_list semi targets =
      runDaysFrom g drivers (dotMap drivers) new_list semi targets (List.range 7)
        ⟨[], fun _ => 0, fun _ => 0, fun _ => 0, 0⟩ := rfl
  rw [hval, hdays]
  have hnil : (⟨[], fun _ => 0, fun _ => 0, fun _ => 0, 0⟩ : WeekSt).days
      = ([] : List DayAssignment) := rfl
  have h0 : (⟨[], fun _ => 0, fun _ => 0, fun _ => 0, 0⟩ : WeekSt).tracker n = 0 := rfl
  rw [hnil, List.nil_append]
  omega

/-- C3: for every driver, every roster, every choice of targets and every
random choice, the seven Day Allocator runs sharing one standby tracker
place the driver in the Standby category on at most 2 days: the tracker is
checked (`< 2`) before every acceptance and incremented on acceptance. -/
theorem C3_standby_days_le_two (g : Rng) (drivers : List Driver)
    (new_list semi : List String) (targets : List DayCounts) (n : String) :
    ((allocPhase g drivers new_list semi targets).days.countP
      (fun a => decide (n ∈ a.standby))) ≤ 2 :=
  allocPhase_standby_mem_le_two g drivers new_list semi targets n

/-! ### Label-map dictionary lemmas -/

theorem dget_cons (p : String × Label) (m : LabelMap) (n : String) :
    dget (p :: m) n = if p.1 = n then some p.2 else dget m n := by
  by_cases h : p.1 = n
  · rw [if_pos h]
    simp only [dget]
    rw [List.find?_cons_of_pos _ (by simp [h])]
    rfl
  · rw [if_neg h]
    simp only [dget]
    rw [List.find?_cons_of_neg _ (by simp [h])]

theorem dget_eq_none_of_not_any (m : LabelMap) (n : String)
    (h : m.any (fun p => decide (p.1 = n)) = false) : dget m n = none := by
  induction m with
  | nil => rfl
  | cons p rest ih =>
    simp only [List.any_cons, Bool.or_eq_false_iff] at h
    rw [dget_cons, if_neg (by simpa using h.1)]
    exact ih h.2

theorem dget_append_right (m1 m2 : LabelMap) (n : String) (h : dget m1 n = none) :
    dget (m1 ++ m2) n = dget m2 n := by
  induction m1 with
  | nil => rfl
  | cons p rest ih =>
    rw [dget_cons] at h
    rw [List.cons_append, dget_cons]
    by_cases hp : p.1 = n
    · rw [if_pos hp] at h; exact absurd h (by simp)
    · rw [if_neg hp] at h ⊢
      exact ih h

theorem dget_append_left (m1 m2 : LabelMap) (n : String) (l : Label)
    (h : dget m1 n = some l) : dget (m1 ++ m2) n = some l := by
  induction m1 with
  | nil => simp [dget] at h
  | cons p rest ih =>
    rw [dget_cons] at h
    rw [List.cons_append, dget_cons]
    by_cases hp : p.1 = n
    · rwa [if_pos hp] at h ⊢
    · rw [if_neg hp] at h ⊢
      exact ih h

theorem dget_map_upd_self (m : LabelMap) (n : String) (l : Label) :
    dget (m.map (fun p => if p.1 = n then (n, l) else p)) n =
      if m.any (fun p => decide (p.1 = n)) then some l else none := by
  induction m with
  | nil => rfl
  | cons p rest ih =>
    by_cases h : p.1 = n
    · rw [List.map_cons, if_pos h, dget_cons, List.any_cons]
      simp [h]
    · rw [List.map_cons, if_neg h, dget_cons, List.any_cons, ih]
      rw [decide_eq_false h, Bool.false_or, if_neg h]

theorem dget_map_upd_ne (m : LabelMap) (n : String) (l : Label) (y : String)
    (hy : y ≠ n) :
    dget (m.map (fun p => if p.1 = n then (n, l) else p)) y = dget m y := by
  induction m with
  | nil => rfl
  | cons p rest ih =>
    rw [List.map_cons, dget_cons, dget_cons]
    by_cases h : p.1 = n
    · rw [if_pos h]
      have h1 : ¬ ((n, l).1 = y) := fun hc => hy hc.symm
      have h2 : ¬ (p.1 = y) := fun hc => hy (hc.symm.trans h)
      rw [if_neg h1, if_neg h2]
      exact ih
    · rw [if_neg h]
      by_cases hp : p.1 = y
      · rw [if_pos hp, if_pos hp]
      · rw [if_neg hp, if_neg hp]
        exact ih

theorem dget_dset_self (m : LabelMap) (n : String) (l : Label) :
    dget (dset m n l) n = some l := by
  unfold dset
  by_cases h : m.any (fun p => decide (p.1 = n)) = true
  · rw [if_pos h, dget_map_upd_self, if_pos h]
  · rw [if_neg h]
    rw [dget_append_right _ _ _ (dget_eq_none_of_not_any m n
      (by simp only [Bool.not_eq_true] at h; exact h))]
    rw [dget_cons, if_pos rfl]

theorem dget_dset_ne (m : LabelMap) (n : String) (l : Label) (y : String)
    (hy : y ≠ n) : dget (dset m n l) y = dget m y := by
  unfold dset
  by_cases h : m.any (fun p => decide (p.1 = n)) = true
  · rw [if_pos h, dget_map_upd_ne m n l y hy]
  · rw [if_neg h]
    cases hv : dget m y with
    | none =>
      rw [dget_append_right _ _ _ hv, dget_cons, if_neg (fun hc => hy hc.symm)]
      rfl
    | some lv => rw [dget_append_left _ _ _ _ hv]

theorem dget_dpop_self (m : LabelMap) (n : String) : dget (dpop m n) n = none := by
  induction m with
  | nil => rfl
  | cons p rest ih =>
    simp only [dpop, List.filter_cons] at ih ⊢
    by_cases h : p.1 = n
    · rw [if_neg (by simp [h])]
      exact ih
    · rw [if_pos (by simp [h])]
      rw [dget_cons, if_neg h]
      exact ih

theorem dget_dpop_ne (m : LabelMap) (n y : String) (hy : y ≠ n) :
    dget (dpop m n) y = dget m y := by
  induction m with
  | nil => rfl
  | cons p rest ih =>
    simp only [dpop, List.filter_cons] at ih ⊢
    by_cases h : p.1 = n
    · rw [if_neg (by simp [h])]
      rw [dget_cons, if_neg (fun hc => hy (hc.symm.trans h))]
      exact ih
    · rw [if_pos (by simp [h])]
      rw [dget_cons, dget_cons]
      by_cases hp : p.1 = y
      · rw [if_pos hp, if_pos hp]
      · rw [if_neg hp, if_neg hp]
        exact ih

theorem mem_dset (m : LabelMap) (n : String) (l : Label) (q : String × Label)
    (h : q ∈ dset m n l) : q ∈ m ∨ q = (n, l) := by
  unfold dset at h
  by_cases ha : m.any (fun p => decide (p.1 = n)) = true
  · rw [if_pos ha] at h
    rcases List.mem_map.mp h with ⟨p, hp, hq⟩
    by_cases hpn : p.1 = n
    · rw [if_pos hpn] at hq
      exact Or.inr hq.symm
    · rw [if_neg hpn] at hq
      exact Or.inl (hq ▸ hp)
  · rw [if_neg ha] at h
    rcases List.mem_append.mp h with h1 | h2
    · exact Or.inl h1
    · exact Or.inr (List.mem_singleton.mp h2)

theorem mem_dpop (m : LabelMap) (n : String) (q : String × Label)
    (h : q ∈ dpop m n) : q ∈ m :=
  List.mem_of_mem_filter h

theorem mem_setIfAbsent (m : LabelMap) (n : String) (l : Label) (q : String × Label)
    (h : q ∈ setIfAbsent m n l) : q ∈ m ∨ q = (n, l) := by
  unfold setIfAbsent at h
  by_cases ha : (dget m n).isSome
  · rw [if_pos ha] at h
    exact Or.inl h
  · rw [if_neg ha] at h
    rcases List.mem_append.mp h with h1 | h2
    · exact Or.inl h1
    · exact Or.inr (List.mem_singleton.mp h2)

theorem dget_mem (m : LabelMap) (n : String) (l : Label) (h : dget m n = some l) :
    (n, l) ∈ m := by
  induction m with
  | nil => simp [dget] at h
  | cons p rest ih =>
    obtain ⟨p1, p2⟩ := p
    rw [dget_cons] at h
    by_cases hp : p1 = n
    · rw [if_pos hp] at h
      have h2 : p2 = l := by injection h
      rw [← hp, ← h2]
      exact List.mem_cons_self _ _
    · rw [if_neg hp] at h
      exact List.mem_cons_of_mem _ (ih h)

theorem dget_setIfAbsent_ne (m : LabelMap) (n : String) (l : Label) (y : String)
    (hy : y ≠ n) : dget (setIfAbsent m n l) y = dget m y := by
  unfold setIfAbsent
  by_cases ha : (dget m n).isSome
  · rw [if_pos ha]
  · rw [if_neg ha]
    cases hv : dget m y with
    | none =>
      rw [dget_append_right _ _ _ hv, dget_cons, if_neg (fun hc => hy hc.symm)]
      rfl
    | some lv => rw [dget_append_left _ _ _ _ hv]

theorem getD_set_self (l : List LabelMap) (i : Nat) (x : LabelMap)
    (h : i < l.length) : (l.set i x).getD i [] = x := by
  rw [List.getD_eq_getElem _ _ (by simpa using h)]
  exact List.getElem_set_self ..

theorem getD_set_ne (l : List LabelMap) (i j : Nat) (x : LabelMap) (h : i ≠ j) :
    (l.set i x).getD j [] = l.getD j [] := by
  by_cases hj : j < l.length
  · rw [List.getD_eq_getElem _ _ (by simpa using hj), List.getD_eq_getElem _ _ hj]
    exact List.getElem_set_ne h ..
  · rw [List.getD_eq_default _ _ (by simpa using Nat.le_of_not_lt hj),
      List.getD_eq_default _ _ (Nat.le_of_not_lt hj)]

/-- C5 (amended): when the fairness block swaps driver `d` into victim `v`'s
slot on day `i` (the victim being a different driver, as the victim always
holds a step-van label while `d` holds none), the victim ends the day
labelled Standby if their standby count is below 2, and with no label at
all if the count is already at the cap — never in the Standard (XL)
category. -/
theorem C5_victim_reassigned_to_standby (dd : Driver) (d : String) (i : Nat)
    (v : String) (st : RebSt) (hvd : v ≠ d) (hi : i < st.maps.length)
    (hsched : scheduled_on_day dd i = true) :
    dget ((doSwap dd d i v st).maps.getD i []) v =
      (if st.sbc v < 2 then some Label.Standby else none) := by
  simp only [doSwap, if_pos hsched]
  by_cases hc : st.sbc v < 2
  · rw [if_pos hc, if_pos hc]
    rw [getD_set_self _ _ _ hi]
    rw [dget_dset_self]
  · rw [if_neg hc, if_neg hc]
    rw [getD_set_self _ _ _ hi]
    rw [dget_dset_ne _ _ _ _ hvd, dget_dpop_self]

/-- C5 witness: in the two-driver scenario the swap victim "A" is concretely
relabelled Standby on Sunday. -/
theorem C5_victim_reassigned_to_standby_witness :
    dget ((doSwap (drvCertSun "B") "B" 0 "A"
      ⟨[[("A", Label.DOT)]], zeroCnt, zeroCnt, [], []⟩).maps.getD 0 []) "A"
      = some Label.Standby := by
  have h := C5_victim_reassigned_to_standby (drvCertSun "B") "B" 0 "A"
    ⟨[[("A", Label.DOT)]], zeroCnt, zeroCnt, [], []⟩ (by decide) (by decide) (by decide)
  rw [h]
  decide

theorem standbyLoop_mem_of (cands : List String) (t : String → Nat) (n : String)
    (hmem : n ∈ cands) (ht : t n < 2) : n ∈ (standbyLoop cands t).1 := by
  induction cands generalizing t with
  | nil => simp at hmem
  | cons m rest ih =>
    by_cases hnm : n = m
    · subst hnm
      simp only [standbyLoop, if_pos ht]
      exact List.mem_cons_self _ _
    · rcases List.mem_cons.mp hmem with h1 | h2
      · exact absurd h1 hnm
      · by_cases hm : t m < 2
        · simp only [standbyLoop, if_pos hm]
          exact List.mem_cons_of_mem _ (ih (bump t m) h2 (by rwa [bump_ne t m n hnm]))
        · simp only [standbyLoop, if_neg hm]
          exact ih t h2 ht

/-- C8 (amended): a new driver who misses the XL cut stays in the day's
pool: if the driver is scheduled, ends up in none of the four selected
category lists, and the standby tracker is below 2, the Day Allocator
places the driver in the Standby category (no error is raised — the
function returns normally). -/
theorem C8_unselected_under_cap_gets_standby (g : Rng) (k : Nat)
    (drivers : List Driver) (dot_map : String → Bool) (new_list semi : List String)
    (counts : DayCounts) (dayIdx : Nat) (weekly stepvan tracker : String → Nat)
    (n : String) (hnew : n ∈ new_list)
    (hsched : n ∈ scheduledNames drivers dayIdx)
    (hdot : n ∉ (generate_day_assignments g k drivers dot_map new_list semi counts
      dayIdx weekly stepvan tracker).1.dot)
    (hhr : n ∉ (generate_day_assignments g k drivers dot_map new_list semi counts
      dayIdx weekly stepvan tracker).1.hr)
    (hhelp : n ∉ (generate_day_assignments g k drivers dot_map new_list semi counts
      dayIdx weekly stepvan tracker).1.helper)
    (hxl : n ∉ (generate_day_assignments g k drivers dot_map new_list semi counts
      dayIdx weekly stepvan tracker).1.xl)
    (ht : tracker n < 2) :
    n ∈ (generate_day_assignments g k drivers dot_map new_list semi counts
      dayIdx weekly stepvan tracker).1.standby := by
  rw [gda_standby_eq]
  apply standbyLoop_mem_of _ _ _ _ ht
  simp only [gdaStandbyCands]
  refine List.mem_filter.mpr ⟨hsched, ?_⟩
  simp only [decide_eq_true_eq, List.mem_append]
  simp [hdot, hhr, hhelp, hxl]

/-- C8 witness: the concrete new driver "N" of the counterexample scenario
satisfies every hypothesis and is placed in Standby. -/
theorem C8_unselected_under_cap_gets_standby_witness :
    "N" ∈ (generate_day_assignments rngId 0 [drvNewSun] (dotMap [drvNewSun]) ["N"] []
      zeroCounts 0 zeroCnt zeroCnt zeroCnt).1.standby :=
  C8_unselected_under_cap_gets_standby rngId 0 [drvNewSun] (dotMap [drvNewSun]) ["N"] []
    zeroCounts 0 zeroCnt zeroCnt zeroCnt "N" (by decide) (by decide) (by decide)
    (by decide) (by decide) (by decide) (by decide)

/-! ### Origin of label-map entries built by `build_day_label_map` -/

theorem foldl_setIfAbsent_mem (lab : Label) (L : List String) (m0 : LabelMap)
    (q : String × Label)
    (h : q ∈ L.foldl (fun m n => setIfAbsent m n lab) m0) :
    q ∈ m0 ∨ (q.1 ∈ L ∧ q.2 = lab) := by
  induction L generalizing m0 with
  | nil => exact Or.inl h
  | cons x rest ih =>
    rcases ih (setIfAbsent m0 x lab) h with h1 | h2
    · rcases mem_setIfAbsent m0 x lab q h1 with h3 | h4
      · exact Or.inl h3
      · right
        rw [h4]
        exact ⟨List.mem_cons_self _ _, rfl⟩
    · exact Or.inr ⟨List.mem_cons_of_mem _ h2.1, h2.2⟩

theorem foldl_pairHR_mem (ps : List (String × Option String)) (m0 : LabelMap)
    (q : String × Label)
    (h : q ∈ ps.foldl (fun m p => if p.1 = "" then m else dset m p.1 Label.HR) m0) :
    q ∈ m0 ∨ (q.1 ∈ ps.map Prod.fst ∧ q.2 = Label.HR) := by
  induction ps generalizing m0 with
  | nil => exact Or.inl h
  | cons p rest ih =>
    rcases ih _ h with h1 | h2
    · have h1' : q ∈ (if p.1 = "" then m0 else dset m0 p.1 Label.HR) := h1
      by_cases hp : p.1 = ""
      · rw [if_pos hp] at h1'
        exact Or.inl h1'
      · rw [if_neg hp] at h1'
        rcases mem_dset _ _ _ _ h1' with h3 | h4
        · exact Or.inl h3
        · right
          rw [h4]
          exact ⟨by simp, rfl⟩
    · exact Or.inr ⟨by simp only [List.map_cons]; exact List.mem_cons_of_mem _ h2.1, h2.2⟩

theorem foldl_dsetUN_mem (L : List String) (m0 : LabelMap) (q : String × Label)
    (h : q ∈ L.foldl (fun m n => dset m n Label.UnassignedNew) m0) :
    q ∈ m0 ∨ q.2 = Label.UnassignedNew := by
  induction L generalizing m0 with
  | nil => exact Or.inl h
  | cons x rest ih =>
    rcases ih _ h with h1 | h2
    · rcases mem_dset _ _ _ _ h1 with h3 | h4
      · exact Or.inl h3
      · exact Or.inr (by rw [h4])
    · exact Or.inr h2

/-- Every entry of a built day label map comes from the category list that
owns its label (helper-route labels from the pairings, whose first
components are the helper-route list). -/
theorem build_entry_origin (a : DayAssignment) (q : String × Label)
    (h : q ∈ build_day_label_map a) :
    (q.2 = Label.HR ∧ q.1 ∈ a.pairs.map Prod.fst) ∨
    (q.2 = Label.DOT ∧ q.1 ∈ a.dot) ∨
    (q.2 = Label.Helper ∧ q.1 ∈ a.helper) ∨
    (q.2 = Label.XL ∧ q.1 ∈ a.xl) ∨
    (q.2 = Label.Standby ∧ q.1 ∈ a.standby) ∨
    q.2 = Label.UnassignedNew := by
  simp only [build_day_label_map] at h
  rcases foldl_dsetUN_mem _ _ _ h with h1 | h2
  · rcases foldl_setIfAbsent_mem _ _ _ _ h1 with h3 | h4
    · rcases foldl_setIfAbsent_mem _ _ _ _ h3 with h5 | h6
      · rcases foldl_setIfAbsent_mem _ _ _ _ h5 with h7 | h8
        · rcases foldl_setIfAbsent_mem _ _ _ _ h7 with h9 | h10
          · rcases foldl_pairHR_mem _ _ _ h9 with h11 | h12
            · simp at h11
            · exact Or.inl ⟨h12.2, h12.1⟩
          · exact Or.inr (Or.inl ⟨h10.2, h10.1⟩)
        · exact Or.inr (Or.inr (Or.inl ⟨h8.2, h8.1⟩))
      · exact Or.inr (Or.inr (Or.inr (Or.inl ⟨h6.2, h6.1⟩)))
    · exact Or.inr (Or.inr (Or.inr (Or.inr (Or.inl ⟨h4.2, h4.1⟩))))
  · exact Or.inr (Or.inr (Or.inr (Or.inr (Or.inr h2))))

theorem build_entry_standby (a : DayAssignment) (n : String)
    (h : dget (build_day_label_map a) n = some Label.Standby) : n ∈ a.standby := by
  have hq := dget_mem _ _ _ h
  rcases build_entry_origin a (n, Label.Standby) hq with h1 | h2 | h3 | h4 | h5 | h6
  · exact absurd h1.1 (by simp)
  · exact absurd h2.1 (by simp)
  · exact absurd h3.1 (by simp)
  · exact absurd h4.1 (by simp)
  · exact h5.2
  · exact absurd h6 (by simp)

/-! ### Counting Standby labels across the week -/

theorem countP_set_eq (p : LabelMap → Bool) (l : List LabelMap) (i : Nat)
    (x : LabelMap) (hi : i < l.length) :
    (l.set i x).countP p + (if p (l.getD i []) then 1 else 0)
      = l.countP p + (if p x then 1 else 0) := by
  induction l generalizing i with
  | nil => simp at hi
  | cons a rest ih =>
    cases i with
    | zero =>
      rw [List.set_cons_zero, List.countP_cons, List.countP_cons, List.getD_cons_zero]
      omega
    | succ j =>
      rw [List.set_cons_succ, List.countP_cons, List.countP_cons, List.getD_cons_succ]
      have hj : j < rest.length := by
        simp only [List.length_cons] at hi
        omega
      have := ih j hj
      omega

theorem countP_standby_set_eq (maps : List LabelMap) (i : Nat) (x : LabelMap)
    (n : String) (hi : i < maps.length) :
    standbyLabelDays (maps.set i x) n
        + (if dget (maps.getD i []) n = some Label.Standby then 1 else 0)
      = standbyLabelDays maps n
        + (if dget x n = some Label.Standby then 1 else 0) := by
  have heq := countP_set_eq (fun m => decide (dget m n = some Label.Standby)) maps i x hi
  simpa [standbyLabelDays] using heq

theorem labelDays_set_le_of_imp (maps : List LabelMap) (i : Nat) (x : LabelMap)
    (n : String)
    (hx : dget x n = some Label.Standby → dget (maps.getD i []) n = some Label.Standby) :
    standbyLabelDays (maps.set i x) n ≤ standbyLabelDays maps n := by
  by_cases hi : i < maps.length
  · have heq := countP_standby_set_eq maps i x n hi
    by_cases hst : dget x n = some Label.Standby
    · rw [if_pos hst, if_pos (hx hst)] at heq
      omega
    · rw [if_neg hst] at heq
      have hb : (if dget (maps.getD i []) n = some Label.Standby then 1 else 0) ≤ 1 := by
        split <;> omega
      omega
  · rw [List.set_eq_of_length_le (Nat.le_of_not_lt hi)]

theorem labelDays_set_le_succ (maps : List LabelMap) (i : Nat) (x : LabelMap)
    (n : String) :
    standbyLabelDays (maps.set i x) n ≤ standbyLabelDays maps n + 1 := by
  by_cases hi : i < maps.length
  · have heq := countP_standby_set_eq maps i x n hi
    have hb1 : (if dget x n = some Label.Standby then 1 else 0) ≤ 1 := by
      split <;> omega
    omega
  · rw [List.set_eq_of_length_le (Nat.le_of_not_lt hi)]
    omega

/-! ### The fairness block preserves the standby-count invariant -/

/-- Invariant of the fairness-enforcement block: the recomputed number of
Standby-labelled days never exceeds the running `standby_count`, which
itself never exceeds 2. -/
def RebInv (st : RebSt) : Prop :=
  (∀ n, standbyLabelDays st.maps n ≤ st.sbc n) ∧ (∀ n, st.sbc n ≤ 2)

theorem bump_ge (f : String → Nat) (x y : String) : f y ≤ bump f x y := by
  by_cases h : y = x
  · subst h
    rw [bump_self]
    omega
  · rw [bump_ne _ _ _ h]

theorem doSwap_inv (dd : Driver) (d : String) (i : Nat) (v : String) (st : RebSt)
    (h : RebInv st) : RebInv (doSwap dd d i v st) := by
  obtain ⟨h1, h2⟩ := h
  have hm1get : ∀ n, dget (dset (dpop (st.maps.getD i []) v) d Label.DOT) n
      = some Label.Standby → dget (st.maps.getD i []) n = some Label.Standby := by
    intro n hn
    by_cases hnd : n = d
    · subst hnd
      rw [dget_dset_self] at hn
      exact absurd hn (by simp)
    · rw [dget_dset_ne _ _ _ _ hnd] at hn
      by_cases hnv : n = v
      · subst hnv
        rw [dget_dpop_self] at hn
        exact absurd hn (by simp)
      · rwa [dget_dpop_ne _ _ _ hnv] at hn
  by_cases hs : scheduled_on_day dd i = true
  · by_cases hc : st.sbc v < 2
    · have hds : doSwap dd d i v st =
          ⟨st.maps.set i (dset (dset (dpop (st.maps.getD i []) v) d Label.DOT)
            v Label.Standby),
           fun y => if y = d then 1 else st.stepvan y, bump st.sbc v,
           st.swaps ++ [(v, d, i)], st.reass ++ [(v, i)]⟩ := by
        simp only [doSwap, if_pos hs, if_pos hc]
      rw [hds]
      refine ⟨fun n => ?_, fun n => ?_⟩
      · show standbyLabelDays (st.maps.set i
            (dset (dset (dpop (st.maps.getD i []) v) d Label.DOT) v Label.Standby)) n
          ≤ bump st.sbc v n
        by_cases hnv : n = v
        · subst hnv
          have ha := labelDays_set_le_succ st.maps i
            (dset (dset (dpop (st.maps.getD i []) n) d Label.DOT) n Label.Standby) n
          have hb := h1 n
          have hcc : bump st.sbc n n = st.sbc n + 1 := bump_self _ _
          omega
        · have ha := labelDays_set_le_of_imp st.maps i
            (dset (dset (dpop (st.maps.getD i []) v) d Label.DOT) v Label.Standby) n
            (fun hn => hm1get n (by rwa [dget_dset_ne _ _ _ _ hnv] at hn))
          have hb := h1 n
          have hcc : bump st.sbc v n = st.sbc n := bump_ne _ _ _ hnv
          omega
      · show bump st.sbc v n ≤ 2
        by_cases hnv : n = v
        · subst hnv
          have := bump_self st.sbc n
          omega
        · have hcc : bump st.sbc v n = st.sbc n := bump_ne _ _ _ hnv
          have := h2 n
          omega
    · have hds : doSwap dd d i v st =
          ⟨st.maps.set i (dset (dpop (st.maps.getD i []) v) d Label.DOT),
           fun y => if y = d then 1 else st.stepvan y, st.sbc,
           st.swaps ++ [(v, d, i)], st.reass⟩ := by
        simp only [doSwap, if_pos hs, if_neg hc]
      rw [hds]
      refine ⟨fun n => ?_, fun n => h2 n⟩
      show standbyLabelDays (st.maps.set i
          (dset (dpop (st.maps.getD i []) v) d Label.DOT)) n ≤ st.sbc n
      exact le_trans (labelDays_set_le_of_imp st.maps i _ n (hm1get n)) (h1 n)
  · have hds : doSwap dd d i v st =
        ⟨st.maps.set i (dset (dpop (st.maps.getD i []) v) d Label.DOT),
         fun y => if y = d then 1 else st.stepvan y, st.sbc,
         st.swaps ++ [(v, d, i)], st.reass⟩ := by
      simp only [doSwap, if_neg hs]
    rw [hds]
    refine ⟨fun n => ?_, fun n => h2 n⟩
    show standbyLabelDays (st.maps.set i
        (dset (dpop (st.maps.getD i []) v) d Label.DOT)) n ≤ st.sbc n
    exact le_trans (labelDays_set_le_of_imp st.maps i _ n (hm1get n)) (h1 n)

theorem rebScanDays_inv (dd : Driver) (d : String) (days : List Nat) (st : RebSt)
    (h : RebInv st) : RebInv (rebScanDays dd d days st) := by
  induction days generalizing st with
  | nil => exact h
  | cons i rest ih =>
    simp only [rebScanDays]
    by_cases hs : scheduled_on_day dd i = true
    · rw [if_pos hs]
      cases hfv : findVictim (st.maps.getD i []) with
      | some v => exact doSwap_inv dd d i v st h
      | none => exact ih st h
    · rw [if_neg hs]
      exact ih st h

theorem rebalanceDriver_inv (drivers : List Driver) (st : RebSt) (d : String)
    (h : RebInv st) : RebInv (rebalanceDriver drivers st d) := by
  unfold rebalanceDriver
  cases drivers.find? (fun r => decide (r.name = d)) with
  | some dd => exact rebScanDays_inv dd d (List.range 7) st h
  | none => exact h

theorem rebalance_inv (drivers : List Driver) (st : RebSt) (uds : List String)
    (h : RebInv st) : RebInv (rebalance drivers st uds) := by
  induction uds generalizing st with
  | nil => exact h
  | cons u rest ih =>
    simp only [rebalance, List.foldl_cons]
    exact ih (rebalanceDriver drivers st u) (rebalanceDriver_inv drivers st u h)

/-- Right after the day-by-day pass, the per-day label maps mark a driver
Standby on at most 2 days (Standby labels only come from the Standby lists,
which the tracker caps). -/
theorem allocMaps_standby_le_two (g : Rng) (drivers : List Driver)
    (new_list semi : List String) (targets : List DayCounts) (n : String) :
    standbyLabelDays (allocMaps g drivers new_list semi targets) n ≤ 2 := by
  have hmem := allocPhase_standby_mem_le_two g drivers new_list semi targets n
  unfold allocMaps standbyLabelDays
  rw [List.countP_map]
  refine le_trans (List.countP_mono_left ?_) hmem
  intro a _ hp
  simp only [Function.comp_apply, decide_eq_true_eq] at hp
  simp only [decide_eq_true_eq]
  exact build_entry_standby a n hp

/-- The final maps of the pipeline are those of the fairness block run from
the post-allocation state (the program performs no further pass; the
"standby cap pass" message is printed without an accompanying pass). -/
theorem runPipeline_maps_eq (g : Rng) (drivers : List Driver)
    (new_list semi : List String) (targets : List DayCounts) :
    (runPipeline g drivers new_list semi targets).maps
      = (rebalance drivers
          ⟨allocMaps g drivers new_list semi targets,
           (allocPhase g drivers new_list semi targets).stepvan,
           fun n => standbyLabelDays (allocMaps g drivers new_list semi targets) n,
           [], []⟩
          ((certNames drivers).filter
            (fun n => decide ((allocPhase g drivers new_list semi targets).stepvan n
              = 0)))).maps := rfl

/-- C7: after the point in the pipeline where the spec's Standby Cap
Repairer would run (the code has no such pass — `main` only prints a
completion message), the recomputed number of Standby-labelled days per
driver is at most 2 for every driver, every input and every random choice:
the Day Allocator caps Standby at selection time and the fairness block
re-checks `standby_count < 2` before relabelling a victim Standby, so no
excess Standby slot ever exists and the repair clause is vacuous. -/
theorem C7_standby_recount_le_two (g : Rng) (drivers : List Driver)
    (new_list semi : List String) (targets : List DayCounts) (n : String) :
    standbyLabelDays (runPipeline g drivers new_list semi targets).maps n ≤ 2 := by
  rw [runPipeline_maps_eq]
  have h0 : RebInv ⟨allocMaps g drivers new_list semi targets,
      (allocPhase g drivers new_list semi targets).stepvan,
      fun n => standbyLabelDays (allocMaps g drivers new_list semi targets) n,
      [], []⟩ := by
    constructor
    · intro m
      exact le_refl _
    · intro m
      exact allocMaps_standby_le_two g drivers new_list semi targets m
  have hinv := rebalance_inv drivers _ ((certNames drivers).filter
    (fun n => decide ((allocPhase g drivers new_list semi targets).stepvan n = 0))) h0
  exact le_trans (hinv.1 n) (hinv.2 n)

/-! ### Frame facts of the fairness block -/

theorem doSwap_stepvan (dd : Driver) (d : String) (i : Nat) (v : String) (st : RebSt) :
    (doSwap dd d i v st).stepvan = fun y => if y = d then 1 else st.stepvan y := by
  simp only [doSwap]
  split_ifs <;> rfl

theorem doSwap_swaps (dd : Driver) (d : String) (i : Nat) (v : String) (st : RebSt) :
    (doSwap dd d i v st).swaps = st.swaps ++ [(v, d, i)] := by
  simp only [doSwap]
  split_ifs <;> rfl

theorem rebScanDays_frame (dd : Driver) (d : String) (days : List Nat) (st : RebSt) :
    ((rebScanDays dd d days st).stepvan = st.stepvan ∧
      (rebScanDays dd d days st).swaps = st.swaps) ∨
    ((∀ y, y ≠ d → (rebScanDays dd d days st).stepvan y = st.stepvan y) ∧
      (rebScanDays dd d days st).stepvan d = 1 ∧
      ∃ v i, (rebScanDays dd d days st).swaps = st.swaps ++ [(v, d, i)]) := by
  induction days generalizing st with
  | nil => exact Or.inl ⟨rfl, rfl⟩
  | cons i rest ih =>
    simp only [rebScanDays]
    by_cases hs : scheduled_on_day dd i = true
    · rw [if_pos hs]
      cases hfv : findVictim (st.maps.getD i []) with
      | some v =>
        right
        refine ⟨fun y hy => ?_, ?_, v, i, doSwap_swaps dd d i v st⟩
        · rw [doSwap_stepvan]
          exact if_neg hy
        · rw [doSwap_stepvan]
          exact if_pos rfl
      | none => exact ih st
    · rw [if_neg hs]
      exact ih st

theorem rebalanceDriver_frame (drivers : List Driver) (st : RebSt) (d : String) :
    ((rebalanceDriver drivers st d).stepvan = st.stepvan ∧
      (rebalanceDriver drivers st d).swaps = st.swaps) ∨
    ((∀ y, y ≠ d → (rebalanceDriver drivers st d).stepvan y = st.stepvan y) ∧
      (rebalanceDriver drivers st d).stepvan d = 1 ∧
      ∃ v i, (rebalanceDriver drivers st d).swaps = st.swaps ++ [(v, d, i)]) := by
  unfold rebalanceDriver
  cases drivers.find? (fun r => decide (r.name = d)) with
  | some dd => exact rebScanDays_frame dd d (List.range 7) st
  | none => exact Or.inl ⟨rfl, rfl⟩

theorem rebalance_swaps_mono (drivers : List Driver) (uds : List String) (st : RebSt) :
    ∃ tail, (rebalance drivers st uds).swaps = st.swaps ++ tail := by
  induction uds generalizing st with
  | nil => exact ⟨[], by simp [rebalance]⟩
  | cons u rest ih =>
    simp only [rebalance, List.foldl_cons] at ih ⊢
    obtain ⟨tail, htail⟩ := ih (rebalanceDriver drivers st u)
    rcases rebalanceDriver_frame drivers st u with ⟨_, he2⟩ | ⟨_, _, v, i, hsw⟩
    · exact ⟨tail, by rw [htail, he2]⟩
    · exact ⟨(v, u, i) :: tail, by rw [htail, hsw]; simp⟩

theorem rebalance_stepvan_char (drivers : List Driver) (uds : List String) (st : RebSt)
    (hP : ∀ n, n ∈ st.swaps.map (fun s => s.2.1) → st.stepvan n = 1) :
    (∀ n, n ∈ (rebalance drivers st uds).swaps.map (fun s => s.2.1) →
        (rebalance drivers st uds).stepvan n = 1) ∧
    (∀ n, n ∉ (rebalance drivers st uds).swaps.map (fun s => s.2.1) →
        (rebalance drivers st uds).stepvan n = st.stepvan n) := by
  induction uds generalizing st with
  | nil => exact ⟨hP, fun n _ => rfl⟩
  | cons u rest ih =>
    simp only [rebalance, List.foldl_cons] at ih ⊢
    rcases rebalanceDriver_frame drivers st u with ⟨he1, he2⟩ | ⟨hne, hu, v, i, hsw⟩
    · have hih := ih (rebalanceDriver drivers st u)
        (fun n hn => by rw [he1]; exact hP n (by rwa [he2] at hn))
      refine ⟨hih.1, fun n hn => ?_⟩
      rw [hih.2 n hn, he1]
    · have hP' : ∀ n, n ∈ (rebalanceDriver drivers st u).swaps.map (fun s => s.2.1) →
          (rebalanceDriver drivers st u).stepvan n = 1 := by
        intro n hn
        rw [hsw, List.map_append, List.mem_append] at hn
        rcases hn with hn1 | hn2
        · by_cases hnu : n = u
          · rw [hnu]
            exact hu
          · rw [hne n hnu]
            exact hP n hn1
        · simp only [List.map_cons, List.map_nil, List.mem_singleton] at hn2
          rw [hn2]
          exact hu
      have hih := ih (rebalanceDriver drivers st u) hP'
      refine ⟨hih.1, fun n hn => ?_⟩
      obtain ⟨tail, htail⟩ := rebalance_swaps_mono drivers rest (rebalanceDriver drivers st u)
      simp only [rebalance] at htail
      have hn' : n ∉ (rebalanceDriver drivers st u).swaps.map (fun s => s.2.1) := by
        intro hc
        apply hn
        rw [htail, List.map_append, List.mem_append]
        exact Or.inl hc
      rw [hih.2 n hn]
      have hnu : n ≠ u := by
        intro hc
        apply hn'
        rw [hsw, List.map_append, List.mem_append]
        right
        simp [hc]
      exact hne n hnu

/-- The state the fairness block starts from: the post-allocation label
maps, step-van counters, and the recomputed `standby_count`. -/
def rebStart (g : Rng) (drivers : List Driver) (new_list semi : List String)
    (targets : List DayCounts) : RebSt :=
  ⟨allocMaps g drivers new_list semi targets,
   (allocPhase g drivers new_list semi targets).stepvan,
   fun n => standbyLabelDays (allocMaps g drivers new_list semi targets) n, [], []⟩

/-- `unassigned_dots`: the certified drivers with zero step-van count after
the day-by-day pass, in dict-key order. -/
def unassignedDots (g : Rng) (drivers : List Driver) (new_list semi : List String)
    (targets : List DayCounts) : List String :=
  (certNames drivers).filter
    (fun n => decide ((allocPhase g drivers new_list semi targets).stepvan n = 0))

theorem runPipeline_eq (g : Rng) (drivers : List Driver) (new_list semi : List String)
    (targets : List DayCounts) :
    runPipeline g drivers new_list semi targets =
      ⟨(allocPhase g drivers new_list semi targets).days,
       (rebalance drivers (rebStart g drivers new_list semi targets)
         (unassignedDots g drivers new_list semi targets)).maps,
       (allocPhase g drivers new_list semi targets).weekly,
       (rebalance drivers (rebStart g drivers new_list semi targets)
         (unassignedDots g drivers new_list semi targets)).stepvan,
       (rebalance drivers (rebStart g drivers new_list semi targets)
         (unassignedDots g drivers new_list semi targets)).sbc,
       (rebalance drivers (rebStart g drivers new_list semi targets)
         (unassignedDots g drivers new_list semi targets)).swaps,
       (rebalance drivers (rebStart g drivers new_list semi targets)
         (unassignedDots g drivers new_list semi targets)).reass⟩ := rfl

/-- C10: the fairness block never touches `dot_weekly_count` at all, and it
changes `dot_stepvan_count` only for the swapped-in drivers recorded in the
swap log, whose count is set to 1; every other driver — the swap victims in
particular — keeps the counter values left by the day-by-day pass. -/
theorem C10_rebalance_frame (g : Rng) (drivers : List Driver)
    (new_list semi : List String) (targets : List DayCounts) :
    (∀ n, (runPipeline g drivers new_list semi targets).weekly n
        = (allocPhase g drivers new_list semi targets).weekly n) ∧
    (∀ n, n ∉ (runPipeline g drivers new_list semi targets).swaps.map
        (fun s => s.2.1) →
      (runPipeline g drivers new_list semi targets).stepvan n
        = (allocPhase g drivers new_list semi targets).stepvan n) ∧
    (∀ n, n ∈ (runPipeline g drivers new_list semi targets).swaps.map
        (fun s => s.2.1) →
      (runPipeline g drivers new_list semi targets).stepvan n = 1) := by
  have hchar := rebalance_stepvan_char drivers
    (unassignedDots g drivers new_list semi targets)
    (rebStart g drivers new_list semi targets)
    (fun n hn => absurd hn (by simp [rebStart]))
  rw [runPipeline_eq]
  exact ⟨fun n => rfl, fun n hn => hchar.2 n hn, fun n hn => hchar.1 n hn⟩

/-! ### Step-van counters across the day-by-day pass -/

theorem gda_stepvan_eq (g : Rng) (k : Nat) (drivers : List Driver)
    (dot_map : String → Bool) (new_list semi : List String)
    (counts : DayCounts) (dayIdx : Nat) (weekly stepvan tracker : String → Nat) :
    (generate_day_assignments g k drivers dot_map new_list semi counts
      dayIdx weekly stepvan tracker).2.2.1
      = (bumpBoth dot_map (weekly, stepvan)
          ((generate_day_assignments g k drivers dot_map new_list semi counts
            dayIdx weekly stepvan tracker).1.dot
          ++ (generate_day_assignments g k drivers dot_map new_list semi counts
            dayIdx weekly stepvan tracker).1.hr)).2 := rfl

theorem stepDay_stepvan (g : Rng) (drivers : List Driver) (dot_map : String → Bool)
    (new_list semi : List String) (targets : List DayCounts) (st : WeekSt) (i : Nat) :
    (stepDay g drivers dot_map new_list semi targets st i).stepvan =
      (generate_day_assignments g st.k drivers dot_map new_list semi
        (targets.getD i ⟨0, 0, 0, 0⟩) i st.weekly st.stepvan st.tracker).2.2.1 := rfl

theorem bumpBoth_snd_mono (dot_map : String → Bool) (l : List String)
    (ws : (String → Nat) × (String → Nat)) (n : String) :
    ws.2 n ≤ (bumpBoth dot_map ws l).2 n := by
  induction l generalizing ws with
  | nil => exact le_refl _
  | cons x rest ih =>
    simp only [bumpBoth, List.foldl_cons] at ih ⊢
    by_cases hx : dot_map x = true
    · rw [if_pos hx]
      exact le_trans (bump_ge ws.2 x n) (ih (bump ws.1 x, bump ws.2 x))
    · rw [if_neg hx]
      exact ih ws

theorem bumpBoth_snd_mem (dot_map : String → Bool) (l : List String)
    (ws : (String → Nat) × (String → Nat)) (x : String)
    (hmem : x ∈ l) (hdm : dot_map x = true) :
    ws.2 x + 1 ≤ (bumpBoth dot_map ws l).2 x := by
  induction l generalizing ws with
  | nil => simp at hmem
  | cons y rest ih =>
    simp only [bumpBoth, List.foldl_cons] at ih ⊢
    by_cases hxy : y = x
    · rw [if_pos (show dot_map y = true by rw [hxy]; exact hdm)]
      have h2 := bumpBoth_snd_mono dot_map rest (bump ws.1 y, bump ws.2 y) x
      simp only [bumpBoth] at h2
      have h3 : bump ws.2 y x = ws.2 x + 1 := by
        rw [hxy]
        exact bump_self _ _
      have h4 : (bump ws.1 y, bump ws.2 y).2 x = bump ws.2 y x := rfl
      omega
    · have hx : x ∈ rest := by
        rcases List.mem_cons.mp hmem with h | h
        · exact absurd h.symm hxy
        · exact h
      by_cases hy : dot_map y = true
      · rw [if_pos hy]
        have := ih (bump ws.1 y, bump ws.2 y) hx
        have hb : (bump ws.1 y, bump ws.2 y).2 x = ws.2 x :=
          bump_ne _ _ _ (fun hc => hxy hc.symm)
        omega
      · rw [if_neg hy]
        exact ih ws hx

theorem runDaysFrom_stepvan_mono (g : Rng) (drivers : List Driver)
    (dot_map : String → Bool) (new_list semi : List String)
    (targets : List DayCounts) (idxs : List Nat) (st : WeekSt) (n : String) :
    st.stepvan n ≤ (runDaysFrom g drivers dot_map new_list semi targets idxs st).stepvan n := by
  induction idxs generalizing st with
  | nil => exact le_refl _
  | cons i rest ih =>
    refine le_trans ?_ (ih (stepDay g drivers dot_map new_list semi targets st i))
    rw [stepDay_stepvan, gda_stepvan_eq]
    exact bumpBoth_snd_mono dot_map _ (st.weekly, st.stepvan) n

theorem runDaysFrom_stepvan_pos (g : Rng) (drivers : List Driver)
    (dot_map : String → Bool) (new_list semi : List String)
    (targets : List DayCounts) (idxs : List Nat) (st : WeekSt) (d : String)
    (a : DayAssignment) (hdm : dot_map d = true)
    (ha : a ∈ (runDaysFrom g drivers dot_map new_list semi targets idxs st).days)
    (hmem : d ∈ a.dot ++ a.hr) :
    1 ≤ (runDaysFrom g drivers dot_map new_list semi targets idxs st).stepvan d
      ∨ a ∈ st.days := by
  induction idxs generalizing st with
  | nil => exact Or.inr ha
  | cons i rest ih =>
    rcases ih (stepDay g drivers dot_map new_list semi targets st i) ha with h1 | h2
    · exact Or.inl h1
    · rw [stepDay_days] at h2
      rcases List.mem_append.mp h2 with h3 | h4
      · exact Or.inr h3
      · left
      
        have ha' : a = (generate_day_assignments g st.k drivers dot_map new_list semi
            (targets.getD i ⟨0, 0, 0, 0⟩) i st.weekly st.stepvan st.tracker).1 :=
          List.mem_singleton.mp h4
        have hstep : 1 ≤ (stepDay g drivers dot_map new_list semi targets st i).stepvan d := by
          rw [stepDay_stepvan, gda_stepvan_eq]
          have hmm : d ∈ (generate_day_assignments g st.k drivers dot_map new_list semi
              (targets.getD i ⟨0, 0, 0, 0⟩) i st.weekly st.stepvan st.tracker).1.dot
            ++ (generate_day_assignments g st.k drivers dot_map new_list semi
              (targets.getD i ⟨0, 0, 0, 0⟩) i st.weekly st.stepvan st.tracker).1.hr := by
            rw [← ha']
            exact hmem
          have := bumpBoth_snd_mem dot_map _ (st.weekly, st.stepvan) d hmm hdm
          omega
        exact le_trans hstep (runDaysFrom_stepvan_mono g drivers dot_map new_list semi
          targets rest (stepDay g drivers dot_map new_list semi targets st i) d)

/-! ### Pairings and helper-route lists -/

theorem pairLoop_map_fst (ds hs : List String) :
    (pairLoop ds hs).map Prod.fst = ds := by
  induction ds generalizing hs with
  | nil => rfl
  | cons x rest ih =>
    cases hs with
    | nil => simp [pairLoop, ih []]
    | cons h hs => simp [pairLoop, ih hs]

theorem gda_pairs_fst (g : Rng) (k : Nat) (drivers : List Driver)
    (dot_map : String → Bool) (new_list semi : List String)
    (counts : DayCounts) (dayIdx : Nat) (weekly stepvan tracker : String → Nat) :
    (generate_day_assignments g k drivers dot_map new_list semi counts
      dayIdx weekly stepvan tracker).1.pairs.map Prod.fst
    = (generate_day_assignments g k drivers dot_map new_list semi counts
      dayIdx weekly stepvan tracker).1.hr := by
  obtain ⟨hs, hp⟩ : ∃ hs, (generate_day_assignments g k drivers dot_map new_list semi
      counts dayIdx weekly stepvan tracker).1.pairs
    = pairLoop ((generate_day_assignments g k drivers dot_map new_list semi counts
      dayIdx weekly stepvan tracker).1.hr) hs := ⟨_, rfl⟩
  rw [hp, pairLoop_map_fst]

theorem runDaysFrom_days_pairs_fst (g : Rng) (drivers : List Driver)
    (dot_map : String → Bool) (new_list semi : List String)
    (targets : List DayCounts) (idxs : List Nat) (st : WeekSt)
    (hst : ∀ a ∈ st.days, a.pairs.map Prod.fst = a.hr) :
    ∀ a ∈ (runDaysFrom g drivers dot_map new_list semi targets idxs st).days,
      a.pairs.map Prod.fst = a.hr := by
  induction idxs generalizing st with
  | nil => exact hst
  | cons i rest ih =>
    refine ih (stepDay g drivers dot_map new_list semi targets st i) ?_
    intro a ha
    rw [stepDay_days] at ha
    rcases List.mem_append.mp ha with h1 | h2
    · exact hst a h1
    · rw [List.mem_singleton.mp h2]
      exact gda_pairs_fst g st.k drivers dot_map new_list semi _ i
        st.weekly st.stepvan st.tracker

/-! ### Unserved drivers hold no step-van label after allocation -/

/-- Driver `d` holds no "DOT" / "DOT-HelperRoute" entry in the label map. -/
def noStepvanEntry (d : String) (m : LabelMap) : Prop :=
  ∀ l, (d, l) ∈ m → l ≠ Label.DOT ∧ l ≠ Label.HR

/-- The day's label map holds some "DOT" / "DOT-HelperRoute" entry (a
non-empty step-van category, as the fairness block sees it). -/
def hasStepvanEntry (m : LabelMap) : Prop :=
  ∃ p ∈ m, p.2 = Label.DOT ∨ p.2 = Label.HR

instance (m : LabelMap) : Decidable (hasStepvanEntry m) := by
  unfold hasStepvanEntry
  infer_instance

theorem build_noStepvanEntry (a : DayAssignment) (d : String)
    (hdot : d ∉ a.dot) (hpf : d ∉ a.pairs.map Prod.fst) :
    noStepvanEntry d (build_day_label_map a) := by
  intro l hl
  rcases build_entry_origin a (d, l) hl with h1 | h2 | h3 | h4 | h5 | h6
  · exact absurd h1.2 hpf
  · exact absurd h2.2 hdot
  · have he : l = Label.Helper := h3.1
    rw [he]
    exact ⟨by decide, by decide⟩
  · have he : l = Label.XL := h4.1
    rw [he]
    exact ⟨by decide, by decide⟩
  · have he : l = Label.Standby := h5.1
    rw [he]
    exact ⟨by decide, by decide⟩
  · have he : l = Label.UnassignedNew := h6
    rw [he]
    exact ⟨by decide, by decide⟩

theorem noStepvanEntry_getD (d : String) (maps : List LabelMap)
    (h : ∀ m ∈ maps, noStepvanEntry d m) (i : Nat) :
    noStepvanEntry d (maps.getD i []) := by
  by_cases hi : i < maps.length
  · rw [List.getD_eq_getElem _ _ hi]
    exact h _ (List.getElem_mem hi)
  · rw [List.getD_eq_default _ _ (Nat.le_of_not_lt hi)]
    intro l hl
    simp at hl

/-- After the day-by-day pass, a certified driver whose step-van count is
still zero holds no step-van label in any day's map. -/
theorem allocMaps_noStepvanEntry (g : Rng) (drivers : List Driver)
    (new_list semi : List String) (targets : List DayCounts) (d : String)
    (hdm : dotMap drivers d = true)
    (h0 : (allocPhase g drivers new_list semi targets).stepvan d = 0) :
    ∀ m ∈ allocMaps g drivers new_list semi targets, noStepvanEntry d m := by
  intro m hm
  rcases List.mem_map.mp hm with ⟨a, ha, rfl⟩
  have hnot : d ∉ a.dot ++ a.hr := by
    intro hmem
    rcases runDaysFrom_stepvan_pos g drivers (dotMap drivers) new_list semi targets
      (List.range 7) ⟨[], fun _ => 0, fun _ => 0, fun _ => 0, 0⟩ d a hdm ha hmem with
      h1 | h2
    · have hval : allocPhase g drivers new_list semi targets =
          runDaysFrom g drivers (dotMap drivers) new_list semi targets (List.range 7)
            ⟨[], fun _ => 0, fun _ => 0, fun _ => 0, 0⟩ := rfl
      rw [hval] at h0
      omega
    · simp at h2
  have hpf : a.pairs.map Prod.fst = a.hr :=
    runDaysFrom_days_pairs_fst g drivers (dotMap drivers) new_list semi targets
      (List.range 7) ⟨[], fun _ => 0, fun _ => 0, fun _ => 0, 0⟩ (by intro a ha; simp at ha)
      a ha
  apply build_noStepvanEntry
  · intro hc
    exact hnot (List.mem_append.mpr (Or.inl hc))
  · rw [hpf]
    intro hc
    exact hnot (List.mem_append.mpr (Or.inr hc))

/-! ### The victim scan -/

theorem findVictim_none (m : LabelMap) (h : findVictim m = none) :
    ¬ hasStepvanEntry m := by
  rintro ⟨p, hp, hlab⟩
  simp only [findVictim, Option.map_eq_none'] at h
  have := List.find?_eq_none.mp h p hp
  rcases hlab with h1 | h1 <;> simp [h1] at this

theorem findVictim_some (m : LabelMap) (v : String) (h : findVictim m = some v) :
    ∃ l, (v, l) ∈ m ∧ (l = Label.DOT ∨ l = Label.HR) := by
  simp only [findVictim] at h
  cases hf : m.find? (fun p => decide (p.2 = Label.DOT) || decide (p.2 = Label.HR)) with
  | none => rw [hf] at h; simp at h
  | some p =>
    rw [hf] at h
    simp only [Option.map_some', Option.some.injEq] at h
    have hmem := List.mem_of_find?_eq_some hf
    have hlab := List.find?_some hf
    simp only [Bool.or_eq_true, decide_eq_true_eq] at hlab
    refine ⟨p.2, ?_, hlab⟩
    rw [← h]
    exact hmem

theorem mem_dset_self (m : LabelMap) (n : String) (l : Label) : (n, l) ∈ dset m n l := by
  unfold dset
  by_cases ha : m.any (fun p => decide (p.1 = n)) = true
  · rw [if_pos ha]
    rcases List.any_eq_true.mp ha with ⟨p, hp, hpn⟩
    simp only [decide_eq_true_eq] at hpn
    exact List.mem_map.mpr ⟨p, hp, by rw [if_pos hpn]⟩
  · rw [if_neg ha]
    exact List.mem_append.mpr (Or.inr (List.mem_singleton.mpr rfl))

theorem mem_dset_of_ne (m : LabelMap) (n : String) (l : Label) (q : String × Label)
    (hq : q ∈ m) (hne : ¬ q.1 = n) : q ∈ dset m n l := by
  unfold dset
  by_cases ha : m.any (fun p => decide (p.1 = n)) = true
  · rw [if_pos ha]
    refine List.mem_map.mpr ⟨q, hq, ?_⟩
    rw [if_neg hne]
  · rw [if_neg ha]
    exact List.mem_append.mpr (Or.inl hq)

/-! ### The fairness block serves every unserved driver with a slot -/

theorem doSwap_maps_cases (dd : Driver) (d : String) (i : Nat) (v : String) (st : RebSt) :
    (doSwap dd d i v st).maps
        = st.maps.set i (dset (dset (dpop (st.maps.getD i []) v) d Label.DOT)
            v Label.Standby)
      ∨ (doSwap dd d i v st).maps
        = st.maps.set i (dset (dpop (st.maps.getD i []) v) d Label.DOT) := by
  simp only [doSwap]
  split_ifs
  · exact Or.inl rfl
  · exact Or.inr rfl
  · exact Or.inr rfl

theorem mem_swapmap1 (m0 : LabelMap) (d v : String) (q : String × Label)
    (h : q ∈ dset (dpop m0 v) d Label.DOT) :
    q ∈ m0 ∨ q = (d, Label.DOT) := by
  rcases mem_dset _ _ _ _ h with h1 | h2
  · exact Or.inl (mem_dpop _ _ _ h1)
  · exact Or.inr h2

theorem mem_swapmap2 (m0 : LabelMap) (d v : String) (q : String × Label)
    (h : q ∈ dset (dset (dpop m0 v) d Label.DOT) v Label.Standby) :
    q ∈ m0 ∨ q = (d, Label.DOT) ∨ q = (v, Label.Standby) := by
  rcases mem_dset _ _ _ _ h with h1 | h2
  · rcases mem_swapmap1 m0 d v q h1 with h3 | h4
    · exact Or.inl h3
    · exact Or.inr (Or.inl h4)
  · exact Or.inr (Or.inr h2)

theorem doSwap_pres_noEntry (dd : Driver) (d2 : String) (i : Nat) (v : String)
    (st : RebSt) (d : String) (hdne : d ≠ d2)
    (hd : ∀ j, noStepvanEntry d (st.maps.getD j [])) :
    ∀ j, noStepvanEntry d ((doSwap dd d2 i v st).maps.getD j []) := by
  intro j
  rcases doSwap_maps_cases dd d2 i v st with hm | hm <;> rw [hm]
  · by_cases hji : i = j
    · subst hji
      by_cases hi : i < st.maps.length
      · rw [getD_set_self _ _ _ hi]
        intro l hl
        rcases mem_swapmap2 _ _ _ _ hl with h1 | h2 | h3
        · exact hd i l h1
        · exact absurd (congrArg Prod.fst h2) hdne
        · have hls : l = Label.Standby := congrArg Prod.snd h3
          rw [hls]
          exact ⟨by decide, by decide⟩
      · rw [List.set_eq_of_length_le (Nat.le_of_not_lt hi)]
        exact hd i
    · rw [getD_set_ne _ _ _ _ hji]
      exact hd j
  · by_cases hji : i = j
    · subst hji
      by_cases hi : i < st.maps.length
      · rw [getD_set_self _ _ _ hi]
        intro l hl
        rcases mem_swapmap1 _ _ _ _ hl with h1 | h2
        · exact hd i l h1
        · exact absurd (congrArg Prod.fst h2) hdne
      · rw [List.set_eq_of_length_le (Nat.le_of_not_lt hi)]
        exact hd i
    · rw [getD_set_ne _ _ _ _ hji]
      exact hd j

theorem doSwap_pres_hasEntry (dd : Driver) (d2 : String) (i : Nat) (v : String)
    (st : RebSt) (hvne : v ≠ d2) :
    ∀ j, hasStepvanEntry (st.maps.getD j []) →
      hasStepvanEntry ((doSwap dd d2 i v st).maps.getD j []) := by
  intro j hj
  rcases doSwap_maps_cases dd d2 i v st with hm | hm <;> rw [hm]
  · by_cases hji : i = j
    · subst hji
      by_cases hi : i < st.maps.length
      · rw [getD_set_self _ _ _ hi]
        refine ⟨(d2, Label.DOT), ?_, Or.inl rfl⟩
        apply mem_dset_of_ne
        · exact mem_dset_self _ _ _
        · exact fun hc => hvne hc.symm
      · rw [List.set_eq_of_length_le (Nat.le_of_not_lt hi)]
        exact hj
    · rw [getD_set_ne _ _ _ _ hji]
      exact hj
  · by_cases hji : i = j
    · subst hji
      by_cases hi : i < st.maps.length
      · rw [getD_set_self _ _ _ hi]
        exact ⟨(d2, Label.DOT), mem_dset_self _ _ _, Or.inl rfl⟩
      · rw [List.set_eq_of_length_le (Nat.le_of_not_lt hi)]
        exact hj
    · rw [getD_set_ne _ _ _ _ hji]
      exact hj

theorem rebScanDays_pres (dd2 : Driver) (d2 : String) (days : List Nat) (st : RebSt)
    (hself : ∀ j, noStepvanEntry d2 (st.maps.getD j [])) :
    (∀ d, d ≠ d2 → (∀ j, noStepvanEntry d (st.maps.getD j [])) →
      ∀ j, noStepvanEntry d ((rebScanDays dd2 d2 days st).maps.getD j [])) ∧
    (∀ j, hasStepvanEntry (st.maps.getD j []) →
      hasStepvanEntry ((rebScanDays dd2 d2 days st).maps.getD j [])) := by
  induction days generalizing st with
  | nil => exact ⟨fun d _ h j => h j, fun j h => h⟩
  | cons i rest ih =>
    simp only [rebScanDays]
    by_cases hs : scheduled_on_day dd2 i = true
    · rw [if_pos hs]
      cases hfv : findVictim (st.maps.getD i []) with
      | some v =>
        obtain ⟨l, hvm, hvl⟩ := findVictim_some _ _ hfv
        have hvne : v ≠ d2 := by
          intro hc
          subst hc
          have hno := hself i l hvm
          rcases hvl with h1 | h1
          · exact hno.1 h1
          · exact hno.2 h1
        exact ⟨fun d hdne hd j => doSwap_pres_noEntry dd2 d2 i v st d hdne hd j,
          fun j hj => doSwap_pres_hasEntry dd2 d2 i v st hvne j hj⟩
      | none => exact ih st hself
    · rw [if_neg hs]
      exact ih st hself

theorem rebalanceDriver_pres (drivers : List Driver) (st : RebSt) (d2 : String)
    (hself : ∀ j, noStepvanEntry d2 (st.maps.getD j [])) :
    (∀ d, d ≠ d2 → (∀ j, noStepvanEntry d (st.maps.getD j [])) →
      ∀ j, noStepvanEntry d ((rebalanceDriver drivers st d2).maps.getD j [])) ∧
    (∀ j, hasStepvanEntry (st.maps.getD j []) →
      hasStepvanEntry ((rebalanceDriver drivers st d2).maps.getD j [])) := by
  unfold rebalanceDriver
  cases drivers.find? (fun r => decide (r.name = d2)) with
  | some dd => exact rebScanDays_pres dd d2 (List.range 7) st hself
  | none => exact ⟨fun d _ h j => h j, fun j h => h⟩

theorem rebScanDays_success (dd : Driver) (d : String) (days : List Nat) (st : RebSt)
    (i : Nat) (hmem : i ∈ days) (hsched : scheduled_on_day dd i = true)
    (hslot : hasStepvanEntry (st.maps.getD i [])) :
    (rebScanDays dd d days st).stepvan d = 1 := by
  induction days generalizing st with
  | nil => simp at hmem
  | cons j rest ih =>
    simp only [rebScanDays]
    by_cases hs : scheduled_on_day dd j = true
    · rw [if_pos hs]
      cases hfv : findVictim (st.maps.getD j []) with
      | some v =>
        rw [doSwap_stepvan]
        exact if_pos rfl
      | none =>
        have hji : j ≠ i := by
          intro hc
          subst hc
          exact findVictim_none _ hfv hslot
        exact ih st ((List.mem_cons.mp hmem).resolve_left (fun hc => hji hc.symm)) hslot
    · have hji : j ≠ i := by
        intro hc
        subst hc
        exact hs hsched
      rw [if_neg hs]
      exact ih st ((List.mem_cons.mp hmem).resolve_left (fun hc => hji hc.symm)) hslot

theorem rebalanceDriver_success (drivers : List Driver) (st : RebSt) (d : String)
    (dd : Driver) (i : Nat)
    (hfind : drivers.find? (fun r => decide (r.name = d)) = some dd)
    (hi : i < 7) (hsched : scheduled_on_day dd i = true)
    (hslot : hasStepvanEntry (st.maps.getD i [])) :
    (rebalanceDriver drivers st d).stepvan d = 1 := by
  unfold rebalanceDriver
  rw [hfind]
  exact rebScanDays_success dd d (List.range 7) st i (List.mem_range.mpr hi) hsched hslot

theorem rebalance_stepvan_not_mem (drivers : List Driver) (uds : List String)
    (st : RebSt) (y : String) (hy : y ∉ uds) :
    (rebalance drivers st uds).stepvan y = st.stepvan y := by
  induction uds generalizing st with
  | nil => rfl
  | cons u rest ih =>
    simp only [rebalance, List.foldl_cons] at ih ⊢
    have hyu : y ≠ u := fun hc => hy (hc ▸ List.mem_cons_self u rest)
    have hyr : y ∉ rest := fun hc => hy (List.mem_cons_of_mem _ hc)
    rw [ih (rebalanceDriver drivers st u) hyr]
    rcases rebalanceDriver_frame drivers st u with ⟨he1, _⟩ | ⟨hne, _, _, _, _⟩
    · rw [he1]
    · exact hne y hyu

theorem rebalance_stepvan_ge_one (drivers : List Driver) (uds : List String)
    (st : RebSt) (d : String) (dd : Driver) (i : Nat)
    (hScan : ∀ u ∈ uds, ∀ j, noStepvanEntry u (st.maps.getD j []))
    (hnd : uds.Nodup) (hd : d ∈ uds)
    (hfind : drivers.find? (fun r => decide (r.name = d)) = some dd)
    (hi : i < 7) (hsched : scheduled_on_day dd i = true)
    (hslot : hasStepvanEntry (st.maps.getD i [])) :
    (rebalance drivers st uds).stepvan d = 1 := by
  induction uds generalizing st with
  | nil => simp at hd
  | cons u rest ih =>
    simp only [rebalance, List.foldl_cons]
    by_cases hdu : d = u
    · subst hdu
      have h1 : (rebalanceDriver drivers st d).stepvan d = 1 :=
        rebalanceDriver_success drivers st d dd i hfind hi hsched hslot
      have h2 : d ∉ rest := (List.nodup_cons.mp hnd).1
      have h3 := rebalance_stepvan_not_mem drivers rest (rebalanceDriver drivers st d) d h2
      simp only [rebalance] at h3
      rw [h3, h1]
    · have hself := hScan u (List.mem_cons_self u rest)
      have hpres := rebalanceDriver_pres drivers st u hself
      have hu_not_rest : u ∉ rest := (List.nodup_cons.mp hnd).1
      refine ih (rebalanceDriver drivers st u) ?_ (List.nodup_cons.mp hnd).2
        ((List.mem_cons.mp hd).resolve_left hdu) ?_
      · intro u2 hu2 j
        have hu2ne : u2 ≠ u := fun hc => hu_not_rest (hc ▸ hu2)
        exact hpres.1 u2 hu2ne (hScan u2 (List.mem_cons_of_mem _ hu2)) j
      · exact hpres.2 i hslot

/-! ### Certified names and their order -/

theorem dedupF_not_mem_seen (l seen : List String) (x : String)
    (hx : x ∈ dedupF seen l) : x ∉ seen := by
  induction l generalizing seen with
  | nil => simp [dedupF] at hx
  | cons a rest ih =>
    simp only [dedupF] at hx
    by_cases ha : a ∈ seen
    · rw [if_pos ha] at hx
      exact ih seen hx
    · rw [if_neg ha] at hx
      rcases List.mem_cons.mp hx with h1 | h2
      · subst h1
        exact ha
      · intro hc
        exact ih (a :: seen) h2 (List.mem_cons_of_mem _ hc)

theorem dedupF_nodup (l seen : List String) : (dedupF seen l).Nodup := by
  induction l generalizing seen with
  | nil => exact List.nodup_nil
  | cons a rest ih =>
    simp only [dedupF]
    by_cases ha : a ∈ seen
    · rw [if_pos ha]
      exact ih seen
    · rw [if_neg ha]
      refine List.nodup_cons.mpr ⟨?_, ih (a :: seen)⟩
      intro hc
      exact dedupF_not_mem_seen rest (a :: seen) a hc (List.mem_cons_self a seen)

theorem mem_dedupF (l seen : List String) (x : String) (hx : x ∈ l) (hs : x ∉ seen) :
    x ∈ dedupF seen l := by
  induction l generalizing seen with
  | nil => simp at hx
  | cons a rest ih =>
    simp only [dedupF]
    by_cases ha : a ∈ seen
    · rw [if_pos ha]
      rcases List.mem_cons.mp hx with h1 | h2
      · subst h1
        exact absurd ha hs
      · exact ih seen h2 hs
    · rw [if_neg ha]
      by_cases hxa : x = a
      · subst hxa
        exact List.mem_cons_self x _
      · rcases List.mem_cons.mp hx with h1 | h2
        · exact absurd h1 hxa
        · refine List.mem_cons_of_mem _ (ih (a :: seen) h2 ?_)
          intro hc
          rcases List.mem_cons.mp hc with hc1 | hc2
          · exact hxa hc1
          · exact hs hc2

theorem mem_certNames (drivers : List Driver) (d : String)
    (hcert : dotMap drivers d = true) : d ∈ certNames drivers := by
  unfold certNames
  refine List.mem_filter.mpr ⟨?_, hcert⟩
  unfold dotMap at hcert
  cases hl : (drivers.filter (fun r => decide (r.name = d))).getLast? with
  | none =>
    rw [hl] at hcert
    simp at hcert
  | some r =>
    have hm : r ∈ drivers.filter (fun r => decide (r.name = d)) := by
      have h' : r ∈ (drivers.filter (fun r => decide (r.name = d))).getLast? :=
        Option.mem_def.mpr hl
      obtain ⟨hne, heq⟩ := List.mem_getLast?_eq_getLast h'
      rw [heq]
      exact List.getLast_mem hne
    have hrd : r.name = d := by
      have := List.of_mem_filter hm
      simpa using this
    refine mem_dedupF _ [] d ?_ (by simp)
    rw [← hrd]
    exact List.mem_map_of_mem _ (List.mem_of_mem_filter hm)

theorem certNames_nodup (drivers : List Driver) : (certNames drivers).Nodup :=
  List.Nodup.filter _ (dedupF_nodup _ [])

theorem runPipeline_stepvan_eq (g : Rng) (drivers : List Driver)
    (new_list semi : List String) (targets : List DayCounts) :
    (runPipeline g drivers new_list semi targets).stepvan
      = (rebalance drivers (rebStart g drivers new_list semi targets)
          (unassignedDots g drivers new_list semi targets)).stepvan := rfl

/-- C9: fairness convergence.  For every certified, non-semi-restricted
driver `d` whose roster record is scheduled on some day `i` of the week
whose post-allocation label map holds a step-van ("DOT"/"DOT-HelperRoute")
entry, the fairness block leaves `d` with a step-van count of at least 1:
either the day-by-day pass already served `d`, or `d` is in
`unassigned_dots` and the scan finds a victim on such a day and swaps `d`
in, setting the count to 1. -/
theorem C9_fairness_convergence (g : Rng) (drivers : List Driver)
    (new_list semi : List String) (targets : List DayCounts)
    (d : String) (dd : Driver) (i : Nat)
    (hcert : dotMap drivers d = true) (hsemi : d ∉ semi)
    (hfind : drivers.find? (fun r => decide (r.name = d)) = some dd)
    (hi : i < 7) (hsched : scheduled_on_day dd i = true)
    (hslot : hasStepvanEntry ((allocMaps g drivers new_list semi targets).getD i [])) :
    1 ≤ (runPipeline g drivers new_list semi targets).stepvan d := by
  rw [runPipeline_stepvan_eq]
  by_cases h0 : (allocPhase g drivers new_list semi targets).stepvan d = 0
  · have hdmem : d ∈ unassignedDots g drivers new_list semi targets := by
      unfold unassignedDots
      exact List.mem_filter.mpr ⟨mem_certNames drivers d hcert, by simp [h0]⟩
    have hScan : ∀ u ∈ unassignedDots g drivers new_list semi targets, ∀ j,
        noStepvanEntry u ((rebStart g drivers new_list semi targets).maps.getD j []) := by
      intro u hu j
      unfold unassignedDots at hu
      obtain ⟨hu1, hu2⟩ := List.mem_filter.mp hu
      simp only [decide_eq_true_eq] at hu2
      have hudm : dotMap drivers u = true := (List.mem_filter.mp hu1).2
      exact noStepvanEntry_getD u _
        (allocMaps_noStepvanEntry g drivers new_list semi targets u hudm hu2) j
    have hnd : (unassignedDots g drivers new_list semi targets).Nodup :=
      List.Nodup.filter _ (certNames_nodup drivers)
    have hone := rebalance_stepvan_ge_one drivers
      (unassignedDots g drivers new_list semi targets)
      (rebStart g drivers new_list semi targets) d dd i hScan hnd hdmem hfind hi
      hsched hslot
    omega
  · have hne : d ∉ unassignedDots g drivers new_list semi targets := by
      unfold unassignedDots
      intro hc
      obtain ⟨_, hc2⟩ := List.mem_filter.mp hc
      simp only [decide_eq_true_eq] at hc2
      exact h0 hc2
    rw [rebalance_stepvan_not_mem drivers _ _ d hne]
    show 1 ≤ (allocPhase g drivers new_list semi targets).stepvan d
    omega

/-- C9 witness: with certified drivers A and B and a single Sunday DOT
slot, the allocator (identity shuffle) serves A, Sunday's map holds a
step-van entry, and the fairness block leaves B with a step-van count of 1. -/
theorem C9_fairness_convergence_witness :
    1 ≤ (runPipeline rngId [drvCertSun "A", drvCertSun "B"] [] []
      (weekTargets1 ⟨0, 0, 1, 0⟩)).stepvan "B" :=
  C9_fairness_convergence rngId [drvCertSun "A", drvCertSun "B"] [] []
    (weekTargets1 ⟨0, 0, 1, 0⟩) "B" (drvCertSun "B") 0 (by decide) (by decide)
    (by decide) (by decide) (by decide) (by decide)
